import Mathlib

/-
Verification of the CosmoHubitatPlugin event-dispatch and condition subsystem.

The development shallowly embeds the Python sources:
  * `utility.py`   — the three condition variants (AttributeChangeCondition,
    DynamicDeviceAttributeCondition, StaticDeviceAttributeCondition);
  * `__init__.py`  — the condition index (`_conditions_for_device`),
    `register_condition` / `unregister_condition`, the dispatch loop body of
    `run`, and the webhook handler `_on_device_event`.

Python dicts are modelled as association lists in insertion order (a new key
is appended at the end, updating an existing key rewrites it in place, `del`
removes it); Python values flowing through events are modelled by `PyVal`
(None, bool, int, str); Python exceptions are modelled with `Except`.
-/

/- Python runtime values that flow through device events.  The repository
feeds webhook JSON scalars (None, booleans, numbers, strings) into the
conditions; class objects never occur as values. -/
inductive PyVal where
  | pnone : PyVal
  | pbool : Bool → PyVal
  | pint : Int → PyVal
  | pstr : String → PyVal
deriving DecidableEq, Repr

/- Evaluation-time failures of `evaluate`: `ValueError` for an unknown
operator string, `TypeError` for an unsupported ordering comparison. -/
inductive EvalErr where
  | unknownOp : String → EvalErr
  | typeErr : EvalErr
deriving DecidableEq, Repr

/- Python numeric view: bool is a subclass of int, so True compares as 1 and
False as 0. -/
def pyToNum : PyVal → Option Int
  | PyVal.pbool b => some (if b then 1 else 0)
  | PyVal.pint n => some n
  | _ => none

/- Python `==` on the modelled values: never raises; numbers compare
numerically across bool/int, strings compare as strings, None only equals
None, and any cross-kind comparison is False. -/
def pyEq (a b : PyVal) : Bool :=
  match pyToNum a, pyToNum b with
  | some m, some n => m = n
  | _, _ =>
    match a, b with
    | PyVal.pnone, PyVal.pnone => true
    | PyVal.pstr x, PyVal.pstr y => x = y
    | _, _ => false

/- Python `!=`. -/
def pyNe (a b : PyVal) : Bool := !(pyEq a b)

/- Python ordering comparison: defined between numbers (bool/int mix) and
between strings (code-point lexicographic); every other pairing, including
anything involving None, raises TypeError. -/
def pyCompare (a b : PyVal) : Option Ordering :=
  match pyToNum a, pyToNum b with
  | some m, some n => some (compare m n)
  | _, _ =>
    match a, b with
    | PyVal.pstr x, PyVal.pstr y =>
        some (if x < y then Ordering.lt else if x = y then Ordering.eq else Ordering.gt)
    | _, _ => none

def pyOrdered (a b : PyVal) (keep : Ordering → Bool) : Except EvalErr Bool :=
  match pyCompare a b with
  | some o => Except.ok (keep o)
  | none => Except.error EvalErr.typeErr

/- Python `a > b`, `a >= b`, `a < b`, `a <= b`. -/
def pyGt (a b : PyVal) : Except EvalErr Bool := pyOrdered a b (fun o => o = Ordering.gt)
def pyGe (a b : PyVal) : Except EvalErr Bool := pyOrdered a b (fun o => o ≠ Ordering.lt)
def pyLt (a b : PyVal) : Except EvalErr Bool := pyOrdered a b (fun o => o = Ordering.lt)
def pyLe (a b : PyVal) : Except EvalErr Bool := pyOrdered a b (fun o => o ≠ Ordering.gt)

/- Python `str.lower()` for the ASCII strings compared here, written over the
character list so that it evaluates by kernel reduction. -/
def pyLower (s : String) : String := String.mk (s.data.map Char.toLower)

/- Python truthiness `bool(value)` for the modelled values. -/
def pyTruthy : PyVal → Bool
  | PyVal.pnone => false
  | PyVal.pbool b => b
  | PyVal.pint n => n ≠ 0
  | PyVal.pstr s => s ≠ ""

/- `utility.py`: class AttributeChangeCondition.  `_prev_value` and
`_curr_value` both start as None. -/
structure AttributeChangeCondition where
  device_id : Int
  attr_name : String
  prev_value : PyVal
  curr_value : PyVal
deriving DecidableEq, Repr

def AttributeChangeCondition.mk0 (d : Int) (a : String) : AttributeChangeCondition :=
  { device_id := d, attr_name := a, prev_value := PyVal.pnone, curr_value := PyVal.pnone }

def AttributeChangeCondition.on_device_event (c : AttributeChangeCondition)
    (device_id : Int) (attr_name : String) (new_value : PyVal) : AttributeChangeCondition :=
  if c.device_id = device_id ∧ c.attr_name = attr_name then
    { c with prev_value := c.curr_value, curr_value := new_value }
  else c

def AttributeChangeCondition.evaluate (c : AttributeChangeCondition) : Bool :=
  pyNe c.prev_value c.curr_value

/- `utility.py`: class DynamicDeviceAttributeCondition.  Both stored operand
values start as None. -/
structure DynamicDeviceAttributeCondition where
  left_device_id : Int
  left_attr_name : String
  right_device_id : Int
  right_attr_name : String
  operator : String
  left_value : PyVal
  right_value : PyVal
deriving DecidableEq, Repr

def DynamicDeviceAttributeCondition.on_device_event (c : DynamicDeviceAttributeCondition)
    (device_id : Int) (attr_name : String) (new_value : PyVal) :
    DynamicDeviceAttributeCondition :=
  if device_id = c.left_device_id ∧ attr_name = c.left_attr_name then
    { c with left_value := new_value }
  else if device_id = c.right_device_id ∧ attr_name = c.right_attr_name then
    { c with right_value := new_value }
  else c

def DynamicDeviceAttributeCondition.get_device_ids (c : DynamicDeviceAttributeCondition) :
    List Int :=
  [c.left_device_id, c.right_device_id]

/- `DynamicDeviceAttributeCondition.evaluate`: ordering comparisons guard both
operands against None and fall back to False; equality comparisons run
unguarded (Python == never raises); an unmatched operator string raises
ValueError. -/
def DynamicDeviceAttributeCondition.evaluate (c : DynamicDeviceAttributeCondition) :
    Except EvalErr Bool :=
  match c.operator with
  | "=" | "==" => Except.ok (pyEq c.left_value c.right_value)
  | "!=" | "<>" => Except.ok (pyNe c.left_value c.right_value)
  | ">" =>
    if c.left_value ≠ PyVal.pnone ∧ c.right_value ≠ PyVal.pnone then
      pyGt c.left_value c.right_value
    else Except.ok false
  | ">=" =>
    if c.left_value ≠ PyVal.pnone ∧ c.right_value ≠ PyVal.pnone then
      pyGe c.left_value c.right_value
    else Except.ok false
  | "<" =>
    if c.left_value ≠ PyVal.pnone ∧ c.right_value ≠ PyVal.pnone then
      pyLt c.left_value c.right_value
    else Except.ok false
  | "<=" =>
    if c.left_value ≠ PyVal.pnone ∧ c.right_value ≠ PyVal.pnone then
      pyLe c.left_value c.right_value
    else Except.ok false
  | op => Except.error (EvalErr.unknownOp op)

/- `utility.py`: class StaticDeviceAttributeCondition.  `_device_value`
starts as None. -/
structure StaticDeviceAttributeCondition where
  device_id : Int
  attr_name : String
  operator : String
  static_value : PyVal
  device_value : PyVal
deriving DecidableEq, Repr

/- `StaticDeviceAttributeCondition._cast_value`.  The source tests the static
value with `isinstance(self._static_value, bool)` and then with
`isinstance(self._static_value, type(int))`, `type(float)`, `type(str)`.
`type(int)` evaluates to the metaclass `type`, so those three tests ask
whether the static value is itself a class object; no event value or static
value in this system is a class, so all three branches are dead and control
falls through to `return value`.  Only the bool branch is live.  The
surrounding try/except cannot fire on the live branches: `str.lower`,
membership and `bool(...)` are total. -/
def StaticDeviceAttributeCondition.cast_value (c : StaticDeviceAttributeCondition)
    (value : PyVal) : PyVal :=
  match value with
  | PyVal.pnone => PyVal.pnone
  | v =>
    match c.static_value with
    | PyVal.pbool _ =>
      match v with
      | PyVal.pstr str =>
          PyVal.pbool (decide (pyLower str ∈ ["true", "1", "yes", "on", "active", "open"]))
      | _ => PyVal.pbool (pyTruthy v)
    | _ => v

def StaticDeviceAttributeCondition.on_device_event (c : StaticDeviceAttributeCondition)
    (device_id : Int) (attr_name : String) (new_value : PyVal) :
    StaticDeviceAttributeCondition :=
  if device_id = c.device_id ∧ c.attr_name = attr_name then
    { c with device_value := c.cast_value new_value }
  else c

/- `StaticDeviceAttributeCondition.evaluate`: unlike the dynamic variant, the
ordering branches have no None guard, so `None > static` raises TypeError;
an unmatched operator raises ValueError. -/
def StaticDeviceAttributeCondition.evaluate (c : StaticDeviceAttributeCondition) :
    Except EvalErr Bool :=
  match c.operator with
  | "=" | "==" => Except.ok (pyEq c.device_value c.static_value)
  | "!=" | "<>" => Except.ok (pyNe c.device_value c.static_value)
  | ">" => pyGt c.device_value c.static_value
  | ">=" => pyGe c.device_value c.static_value
  | "<" => pyLt c.device_value c.static_value
  | "<=" => pyLe c.device_value c.static_value
  | op => Except.error (EvalErr.unknownOp op)

/- ## Python dicts as insertion-ordered association lists -/

/- `d[k]` read returning an Option, first (unique) matching key. -/
def alookup (k : Int) : List (Int × β) → Option β
  | [] => none
  | (k', v) :: rest => if k' = k then some v else alookup k rest

/- `k in d`. -/
def acontains (k : Int) (l : List (Int × β)) : Bool :=
  (alookup k l).isSome

/- `d[k] = v`: rewrite the first matching key in place, or append a new key
at the end (Python dicts preserve insertion order). -/
def aset (k : Int) (v : β) : List (Int × β) → List (Int × β)
  | [] => [(k, v)]
  | (k', v') :: rest => if k' = k then (k, v) :: rest else (k', v') :: aset k v rest

/- `del d[k]`: remove the first matching key. -/
def adel (k : Int) : List (Int × β) → List (Int × β)
  | [] => []
  | (k', v') :: rest => if k' = k then rest else (k', v') :: adel k rest

/- ## The condition index of `__init__.py`

`register_condition` and `unregister_condition` touch a condition only
through `get_device_ids()` and `instance_id`, so for the index we model a
condition by exactly those two observations. -/
structure RegCond where
  instance_id : Int
  device_ids : List Int
deriving DecidableEq, Repr

abbrev CondIndex := List (Int × List (Int × RegCond))

/- Body of the `for device_id in condition.get_device_ids()` loop of
`HubitatPlugin.register_condition`. -/
def registerDevice (c : RegCond) (idx : CondIndex) (d : Int) : CondIndex :=
  let idx1 := if acontains d idx then idx else aset d [] idx
  let b := (alookup d idx1).getD []
  if acontains c.instance_id b then idx1
  else aset d (aset c.instance_id c b) idx1

/- `HubitatPlugin.register_condition`. -/
def register_condition (idx : CondIndex) (c : RegCond) : CondIndex :=
  c.device_ids.foldl (registerDevice c) idx

/- Body of the loop of `HubitatPlugin.unregister_condition`: delete the
instance entry if present, and drop the whole device bucket when that
leaves it empty. -/
def unregisterDevice (c : RegCond) (idx : CondIndex) (d : Int) : CondIndex :=
  match alookup d idx with
  | none => idx
  | some b =>
    if acontains c.instance_id b then
      let b1 := adel c.instance_id b
      if b1.length = 0 then adel d idx else aset d b1 idx
    else idx

/- `HubitatPlugin.unregister_condition`. -/
def unregister_condition (idx : CondIndex) (c : RegCond) : CondIndex :=
  c.device_ids.foldl (unregisterDevice c) idx

/- ## Dispatch loop body of `HubitatPlugin.run`

The concrete condition stored in a bucket is one of the three variants of
`utility.py`; its `on_device_event` is a total state update. -/
inductive HubitatCondition where
  | attrChange : AttributeChangeCondition → HubitatCondition
  | dynCompare : DynamicDeviceAttributeCondition → HubitatCondition
  | staticCompare : StaticDeviceAttributeCondition → HubitatCondition
deriving DecidableEq, Repr

def HubitatCondition.on_device_event (c : HubitatCondition)
    (device_id : Int) (attr_name : String) (new_value : PyVal) : HubitatCondition :=
  match c with
  | HubitatCondition.attrChange a =>
      HubitatCondition.attrChange (a.on_device_event device_id attr_name new_value)
  | HubitatCondition.dynCompare a =>
      HubitatCondition.dynCompare (a.on_device_event device_id attr_name new_value)
  | HubitatCondition.staticCompare a =>
      HubitatCondition.staticCompare (a.on_device_event device_id attr_name new_value)

/- The `for condition in ... .values()` loop of `run`, for the concrete
(total) condition variants: each stored condition is notified in place and
appended to the `conditions` list.  Returns the updated bucket and the
`conditions` list. -/
def notifyBucket (d : Int) (a : String) (v : PyVal) :
    List (Int × HubitatCondition) → List (Int × HubitatCondition) × List HubitatCondition
  | [] => ([], [])
  | (iid, c) :: rest =>
    let c1 := c.on_device_event d a v
    let (rest1, notified) := notifyBucket d a v rest
    ((iid, c1) :: rest1, c1 :: notified)

/- One iteration of the dispatch loop of `run`: dequeue `(d, a, v)`, look the
device up in the index (`.get(device_id, {})`), notify every condition in
the bucket, and yield the notified list only when it is non-empty. -/
def runStep (idx : List (Int × List (Int × HubitatCondition)))
    (d : Int) (a : String) (v : PyVal) :
    List (Int × List (Int × HubitatCondition)) × Option (List HubitatCondition) :=
  match alookup d idx with
  | none => (idx, none)
  | some b =>
    let (b1, notified) := notifyBucket d a v b
    (aset d b1 idx, if notified.length > 0 then some notified else none)

/- The same loop body over the abstract interface `HubitatCondition` of
`utility.py` (`on_device_event` is an abstractmethod there): a handler may
raise, and the loop body has no try/except, so a raise propagates out of
`run`.  On success the result is the `conditions` list; on a raise the error
carries the conditions whose handler ran before the loop died — the
remaining conditions of the bucket are never notified. -/
def notifyLoopAbstract (notify : α → Except Unit α) :
    List (Int × α) → Except (List α) (List α)
  | [] => Except.ok []
  | (_, c) :: rest =>
    match notify c with
    | Except.error _ => Except.error [c]
    | Except.ok c1 =>
      match notifyLoopAbstract notify rest with
      | Except.error invoked => Except.error (c1 :: invoked)
      | Except.ok notified => Except.ok (c1 :: notified)

/- ## Webhook handler `HubitatPlugin._on_device_event`

`client.py` declares `HubitatDeviceEvent` with `device_id: str` (alias
`deviceId`), `attribute: str` (alias `name`) and an arbitrary `value`; the
`attribute` field is spelt `attr_field` here because `attribute` is a
reserved word in Lean. -/
structure HubitatDeviceEvent where
  device_id : String
  attr_field : String
  value : PyVal
deriving DecidableEq, Repr

/- Decimal value of a digit list. -/
def digitsToNat (cs : List Char) : Nat :=
  cs.foldl (fun acc ch => acc * 10 + (ch.toNat - 48)) 0

/- Python `int(s)`: optional surrounding whitespace, an optional sign, then
at least one digit; anything else raises ValueError (modelled as `none`).
Written over the character list so that it evaluates by kernel reduction. -/
def pyIntOfString (s : String) : Option Int :=
  let t := (((s.data.dropWhile Char.isWhitespace).reverse).dropWhile
      Char.isWhitespace).reverse
  match t with
  | [] => none
  | ch :: rest =>
    let signed : Int × List Char :=
      if ch = '-' then (-1, rest) else if ch = '+' then (1, rest) else (1, ch :: rest)
    if signed.2 ≠ [] ∧ signed.2.all Char.isDigit then
      some (signed.1 * (digitsToNat signed.2 : Nat))
    else none

/- `_on_device_event`: coerce `deviceId` with `int(...)`, put the tuple on
the event queue, and answer `{"result": "success"}`.  The queue is modelled
as the list of pending tuples; `aio.Queue.put` appends.  If `int(...)`
raises, no tuple is enqueued and no success response is produced (`none`). -/
def webhook_on_device_event (q : List (Int × String × PyVal)) (event : HubitatDeviceEvent) :
    Option (List (Int × String × PyVal) × String) :=
  match pyIntOfString event.device_id with
  | none => none
  | some n => some (q ++ [(n, event.attr_field, event.value)], "success")

/- ## Derived definitions used by the statements -/

/- Deliver a sequence of matching events to an AttributeChangeCondition
(each event carries the condition's own device id and attribute name). -/
def deliverSeq (d : Int) (a : String) (c : AttributeChangeCondition)
    (evs : List PyVal) : AttributeChangeCondition :=
  evs.foldl (fun st v => st.on_device_event d a v) c

/- A handler over condition state `Int` that raises on state 0 — stands for
an arbitrary condition whose `on_device_event` implementation throws. -/
def faultyNotify (c : Int) : Except Unit Int :=
  if c = 0 then Except.error () else Except.ok c

/- A call trace against the plugin's registration interface. -/
inductive TraceOp where
  | reg : RegCond → TraceOp
  | unreg : RegCond → TraceOp
deriving DecidableEq, Repr

def TraceOp.cond : TraceOp → RegCond
  | TraceOp.reg c => c
  | TraceOp.unreg c => c

def applyOp (idx : CondIndex) : TraceOp → CondIndex
  | TraceOp.reg c => register_condition idx c
  | TraceOp.unreg c => unregister_condition idx c

def runTrace : List TraceOp → CondIndex → CondIndex
  | [], idx => idx
  | op :: ops, idx => runTrace ops (applyOp idx op)

/- The ghost set of currently-registered conditions: a register adds the
condition (once), an unregister removes it. -/
def activeStep (A : List RegCond) : TraceOp → List RegCond
  | TraceOp.reg c => if c ∈ A then A else A ++ [c]
  | TraceOp.unreg c => A.filter (fun x => x ≠ c)

def runActive : List TraceOp → List RegCond → List RegCond
  | [], A => A
  | op :: ops, A => runActive ops (activeStep A op)

/- The spec's data-model invariant that `instance_id` is unique per
registration: within the given collection, the instance id determines the
condition. -/
def InjOnInst (l : List RegCond) : Prop :=
  ∀ c ∈ l, ∀ c' ∈ l, c.instance_id = c'.instance_id → c = c'

/- Structural well-formedness of the index as a picture of nested Python
dicts: keys are unique at both levels, and no bucket is empty. -/
def OuterNodup (idx : CondIndex) : Prop := (idx.map Prod.fst).Nodup

def BucketsNodup (idx : CondIndex) : Prop :=
  ∀ d b, alookup d idx = some b → (b.map Prod.fst).Nodup

def BucketsNonempty (idx : CondIndex) : Prop :=
  ∀ d b, alookup d idx = some b → b ≠ []

def IndexWF (idx : CondIndex) : Prop :=
  OuterNodup idx ∧ BucketsNodup idx ∧ BucketsNonempty idx

/- The instance id occurs in no bucket of the index. -/
def FreshInst (iid : Int) (idx : CondIndex) : Prop :=
  ∀ d b, alookup d idx = some b → acontains iid b = false

/- Effect of one `register_condition` on the bucket of a single device. -/
def regBucketF (c : RegCond) : Option (List (Int × RegCond)) → List (Int × RegCond)
  | none => [(c.instance_id, c)]
  | some b => if acontains c.instance_id b then b else b ++ [(c.instance_id, c)]

/- Effect of one `unregister_condition` on the bucket of a single device. -/
def unregBucketF (c : RegCond) :
    Option (List (Int × RegCond)) → Option (List (Int × RegCond))
  | none => none
  | some b =>
    if acontains c.instance_id b then
      if (adel c.instance_id b).length = 0 then none else some (adel c.instance_id b)
    else some b

/- Relational picture of the index/ghost-set correspondence. -/
structure IndexInv (A : List RegCond) (idx : CondIndex) : Prop where
  sound : ∀ d b, alookup d idx = some b →
    ∀ iid c, (iid, c) ∈ b → c ∈ A ∧ iid = c.instance_id ∧ d ∈ c.device_ids
  complete : ∀ c ∈ A, ∀ d ∈ c.device_ids,
    ∃ b, alookup d idx = some b ∧ acontains c.instance_id b = true
  outer_nodup : OuterNodup idx
  buckets_nodup : BucketsNodup idx
  buckets_nonempty : BucketsNonempty idx

/- First-occurrence deduplication of a device-id list (the accumulator holds
the keys already seen). -/
def dedupAux : List Int → List Int → List Int
  | [], _ => []
  | k :: rest, seen =>
    if k ∈ seen then dedupAux rest seen else k :: dedupAux rest (k :: seen)

def dedupF (l : List Int) : List Int := dedupAux l []

/- The condition's instance id sits in the bucket of device `d`. -/
def PresentAt (c : RegCond) (d : Int) (X : CondIndex) : Prop :=
  ∃ b, alookup d X = some b ∧ acontains c.instance_id b = true

/- The condition's instance id is not in the bucket of device `d` (if any). -/
def AbsentAt (c : RegCond) (d : Int) (X : CondIndex) : Prop :=
  ∀ b, alookup d X = some b → acontains c.instance_id b = false

/- ## Theorems -/

theorem on_device_event_fields (c : AttributeChangeCondition) (d : Int) (a : String)
    (v : PyVal) :
    (c.on_device_event d a v).device_id = c.device_id ∧
      (c.on_device_event d a v).attr_name = c.attr_name := by
  unfold AttributeChangeCondition.on_device_event
  split <;> exact ⟨rfl, rfl⟩

theorem deliverSeq_fields (d : Int) (a : String) (c : AttributeChangeCondition)
    (evs : List PyVal) :
    (deliverSeq d a c evs).device_id = c.device_id ∧
      (deliverSeq d a c evs).attr_name = c.attr_name := by
  induction evs generalizing c with
  | nil => exact ⟨rfl, rfl⟩
  | cons v vs ih =>
    have h1 := on_device_event_fields c d a v
    have h2 := ih (c.on_device_event d a v)
    simp only [deliverSeq, List.foldl_cons] at h2 ⊢
    exact ⟨h2.1.trans h1.1, h2.2.trans h1.2⟩

/-- C2, counterexample: the claim says `evaluate()` stays false until at least
two distinct values have been observed, but after a single event carrying the
one value `"on"` the stored pair is (None, "on") and `bool(None != "on")` is
already true. -/
theorem c2_counterexample_single_event :
    (deliverSeq 7 "switch" (AttributeChangeCondition.mk0 7 "switch")
        [PyVal.pstr "on"]).evaluate = true
    ∧ [PyVal.pstr "on"].dedup.length = 1 := by
  constructor <;> decide

/-- C2 (amended): before any event `evaluate()` is false; after any event
sequence followed by one more matching event with value `v`, `evaluate()`
returns the Python inequality between the previously stored current value
(None when this is the first event, so a single non-None event already
yields true) and `v`. -/
theorem c2_amended_evaluate_reflects_last_two (d : Int) (a : String)
    (evs : List PyVal) (v : PyVal) :
    (AttributeChangeCondition.mk0 d a).evaluate = false ∧
    (deliverSeq d a (AttributeChangeCondition.mk0 d a) (evs ++ [v])).evaluate
      = pyNe (deliverSeq d a (AttributeChangeCondition.mk0 d a) evs).curr_value v := by
  refine ⟨rfl, ?_⟩
  have hfold : deliverSeq d a (AttributeChangeCondition.mk0 d a) (evs ++ [v])
      = (deliverSeq d a (AttributeChangeCondition.mk0 d a) evs).on_device_event d a v := by
    simp [deliverSeq, List.foldl_append]
  rw [hfold]
  have hids := deliverSeq_fields d a (AttributeChangeCondition.mk0 d a) evs
  unfold AttributeChangeCondition.on_device_event
  rw [if_pos ⟨hids.1, hids.2⟩]
  rfl

/-- C3, counterexample: a StaticDeviceAttributeCondition with an ordering
operator whose device value was never observed raises TypeError at
`evaluate()` (`None > 5` in Python) instead of returning false as the claim
states for both variants. -/
theorem c3_counterexample_static_missing_operand :
    ({ device_id := 42, attr_name := "level", operator := ">",
       static_value := PyVal.pint 5, device_value := PyVal.pnone } :
        StaticDeviceAttributeCondition).evaluate
      = Except.error EvalErr.typeErr := by
  rfl

/-- C3 (amended): with a never-observed operand (stored value still None),
DynamicDeviceAttributeCondition degrades to false for the ordering operators
and equality/inequality stay computable; StaticDeviceAttributeCondition
instead raises TypeError for the ordering operators when its device value is
missing, while its equality/inequality also stay computable. -/
theorem c3_amended_missing_operand (op : String)
    (hord : op ∈ [">", ">=", "<", "<="]) :
    (∀ c : DynamicDeviceAttributeCondition, c.operator = op →
        c.left_value = PyVal.pnone ∨ c.right_value = PyVal.pnone →
        c.evaluate = Except.ok false)
    ∧ (∀ c : StaticDeviceAttributeCondition, c.operator = op →
        c.device_value = PyVal.pnone →
        c.evaluate = Except.error EvalErr.typeErr)
    ∧ (∀ op2 ∈ (["=", "==", "!=", "<>"] : List String),
        (∀ c : DynamicDeviceAttributeCondition, c.operator = op2 →
          ∃ r, c.evaluate = Except.ok r)
        ∧ (∀ c : StaticDeviceAttributeCondition, c.operator = op2 →
          ∃ r, c.evaluate = Except.ok r)) := by
  refine ⟨?_, ?_, ?_⟩
  · intro c hop hnull
    rcases c with ⟨ld, la, rd, ra, o, lv, rv⟩
    simp only at hop
    subst hop
    fin_cases hord <;>
      · simp only [DynamicDeviceAttributeCondition.evaluate]
        rw [if_neg]
        rintro ⟨h1, h2⟩
        rcases hnull with h | h
        · exact h1 h
        · exact h2 h
  · intro c hop hnull
    rcases c with ⟨cd, ca, o, sv, dv⟩
    simp only at hop hnull
    subst hop; subst hnull
    fin_cases hord <;> cases sv <;> rfl
  · intro op2 hop2
    constructor
    · intro c hop
      rcases c with ⟨ld, la, rd, ra, o, lv, rv⟩
      simp only at hop
      subst hop
      fin_cases hop2 <;> exact ⟨_, rfl⟩
    · intro c hop
      rcases c with ⟨cd, ca, o, sv, dv⟩
      simp only at hop
      subst hop
      fin_cases hop2 <;> exact ⟨_, rfl⟩

/-- C3, witness for the amended theorem at operator `>`. -/
theorem c3_amended_witness :
    ({ left_device_id := 1, left_attr_name := "a", right_device_id := 2,
       right_attr_name := "b", operator := ">", left_value := PyVal.pnone,
       right_value := PyVal.pint 3 } : DynamicDeviceAttributeCondition).evaluate
      = Except.ok false
    ∧ ({ device_id := 1, attr_name := "a", operator := ">",
         static_value := PyVal.pbool true, device_value := PyVal.pnone } :
          StaticDeviceAttributeCondition).evaluate
      = Except.error EvalErr.typeErr :=
  ⟨(c3_amended_missing_operand ">" (by decide)).1 _ rfl (Or.inl rfl),
   (c3_amended_missing_operand ">" (by decide)).2.1 _ rfl rfl⟩

/-- C4, code bug: `_cast_value` is documented to cast the incoming value to
the static value's type, but its int/float/str branches test
`isinstance(static, type(int))` where `type(int)` is the metaclass `type`,
so they never fire: with static value `5` the incoming string `"7"` is
stored uncast (not converted to `7`).  The bool branch is intact: against a
boolean static value the token strings (case-insensitively) cast to True. -/
theorem c4_cast_value_dead_branches :
    (StaticDeviceAttributeCondition.cast_value
        { device_id := 1, attr_name := "level", operator := "=",
          static_value := PyVal.pint 5, device_value := PyVal.pnone }
        (PyVal.pstr "7")) = PyVal.pstr "7"
    ∧ (StaticDeviceAttributeCondition.on_device_event
        { device_id := 1, attr_name := "level", operator := "=",
          static_value := PyVal.pint 5, device_value := PyVal.pnone }
        1 "level" (PyVal.pstr "7")).device_value = PyVal.pstr "7"
    ∧ (StaticDeviceAttributeCondition.cast_value
        { device_id := 1, attr_name := "switch", operator := "=",
          static_value := PyVal.pbool true, device_value := PyVal.pnone }
        (PyVal.pstr "ON")) = PyVal.pbool true
    ∧ (StaticDeviceAttributeCondition.cast_value
        { device_id := 1, attr_name := "switch", operator := "=",
          static_value := PyVal.pbool true, device_value := PyVal.pnone }
        (PyVal.pstr "off")) = PyVal.pbool false := by
  refine ⟨rfl, rfl, ?_, ?_⟩ <;> decide

/-- C5, code bug: the dispatch loop body of `run` has no exception isolation;
when the first condition's `on_device_event` raises, the loop dies with that
exception and the sibling condition (state `7`) is never notified, contrary
to the claim that remaining conditions are still notified and the loop keeps
running. -/
theorem c5_fault_aborts_dispatch :
    notifyLoopAbstract faultyNotify [(1, 0), (2, 7)] = Except.error [0]
    ∧ (7 : Int) ∉ ([0] : List Int) := by
  exact ⟨rfl, by decide⟩

/-- C7 (confirmed): any operator string outside the supported set makes
`evaluate()` of both comparison variants raise ValueError (modelled as
`EvalErr.unknownOp`) rather than return a boolean. -/
theorem c7_unknown_operator_raises (op : String)
    (h : op ∉ ["=", "==", "!=", "<>", ">", ">=", "<", "<="]) :
    (∀ c : DynamicDeviceAttributeCondition, c.operator = op →
        c.evaluate = Except.error (EvalErr.unknownOp op))
    ∧ (∀ c : StaticDeviceAttributeCondition, c.operator = op →
        c.evaluate = Except.error (EvalErr.unknownOp op)) := by
  simp only [List.mem_cons, not_or] at h
  constructor
  · intro c hop
    rcases c with ⟨ld, la, rd, ra, o, lv, rv⟩
    simp only at hop
    subst hop
    unfold DynamicDeviceAttributeCondition.evaluate
    split <;> simp_all
  · intro c hop
    rcases c with ⟨cd, ca, o, sv, dv⟩
    simp only at hop
    subst hop
    unfold StaticDeviceAttributeCondition.evaluate
    split <;> simp_all

/-- C7, witness at the spec's example operator `~=`. -/
theorem c7_witness :
    ({ left_device_id := 1, left_attr_name := "a", right_device_id := 2,
       right_attr_name := "b", operator := "~=", left_value := PyVal.pnone,
       right_value := PyVal.pnone } : DynamicDeviceAttributeCondition).evaluate
      = Except.error (EvalErr.unknownOp "~=")
    ∧ ({ device_id := 1, attr_name := "a", operator := "~=",
         static_value := PyVal.pint 0, device_value := PyVal.pnone } :
          StaticDeviceAttributeCondition).evaluate
      = Except.error (EvalErr.unknownOp "~=") :=
  ⟨(c7_unknown_operator_raises "~=" (by decide)).1 _ rfl,
   (c7_unknown_operator_raises "~=" (by decide)).2 _ rfl⟩

theorem notifyBucket_spec (d : Int) (a : String) (v : PyVal)
    (b : List (Int × HubitatCondition)) :
    (notifyBucket d a v b).2 = b.map (fun p => p.2.on_device_event d a v)
    ∧ (notifyBucket d a v b).1 = b.map (fun p => (p.1, p.2.on_device_event d a v)) := by
  induction b with
  | nil => exact ⟨rfl, rfl⟩
  | cons p rest ih =>
    simp only [notifyBucket, List.map_cons]
    exact ⟨by rw [← ih.1], by rw [← ih.2]⟩

/-- C9 (confirmed): when `int(deviceId)` parses, the webhook handler appends
exactly the tuple `(int(deviceId), name, value)` to the event queue and
returns the success acknowledgment, independent of any dispatch state; the
response is produced right after enqueuing, before any condition runs. -/
theorem c9_webhook_enqueues_and_acks (q : List (Int × String × PyVal))
    (event : HubitatDeviceEvent) (n : Int)
    (h : pyIntOfString event.device_id = some n) :
    webhook_on_device_event q event
      = some (q ++ [(n, event.attr_field, event.value)], "success") := by
  unfold webhook_on_device_event
  rw [h]

/-- C9, witness: the spec's example body `deviceId = "42"`. -/
theorem c9_witness :
    webhook_on_device_event []
        { device_id := "42", attr_field := "switch", value := PyVal.pstr "on" }
      = some ([((42 : Int), "switch", PyVal.pstr "on")], "success") := by
  have h : pyIntOfString "42" = some 42 := by decide
  simpa using c9_webhook_enqueues_and_acks []
    { device_id := "42", attr_field := "switch", value := PyVal.pstr "on" } 42 h

/-- C8 (confirmed): one dispatch-loop iteration notifies exactly the
conditions stored in the bucket for the event's device id, in bucket order,
and yields that list as a single batch iff it is non-empty; with no bucket
for the device id (as after unregistering its sole condition deletes the
bucket) nothing is emitted. -/
theorem c8_dispatch_notifies_bucket (idx : List (Int × List (Int × HubitatCondition)))
    (d : Int) (a : String) (v : PyVal) :
    (alookup d idx = none → (runStep idx d a v).2 = none)
    ∧ (∀ b, alookup d idx = some b →
        (runStep idx d a v).2 =
          if b.isEmpty then none
          else some (b.map (fun p => p.2.on_device_event d a v))) := by
  constructor
  · intro h
    unfold runStep
    rw [h]
  · intro b hb
    unfold runStep
    rw [hb]
    simp only [notifyBucket_spec d a v b]
    rcases b with _ | ⟨p, rest⟩
    · simp
    · simp [List.isEmpty]

/-- C8, witness: one registered condition for device 1 is notified and
yielded; device 2 has no bucket and nothing is emitted. -/
theorem c8_witness :
    (runStep [(1, [(10, HubitatCondition.attrChange (AttributeChangeCondition.mk0 1 "sw"))])]
        1 "sw" (PyVal.pstr "on")).2
      = some [HubitatCondition.attrChange
          ((AttributeChangeCondition.mk0 1 "sw").on_device_event 1 "sw" (PyVal.pstr "on"))]
    ∧ (runStep [(1, [(10, HubitatCondition.attrChange (AttributeChangeCondition.mk0 1 "sw"))])]
        2 "sw" (PyVal.pstr "on")).2 = none := by
  constructor
  · have h := (c8_dispatch_notifies_bucket
      [(1, [(10, HubitatCondition.attrChange (AttributeChangeCondition.mk0 1 "sw"))])]
      1 "sw" (PyVal.pstr "on")).2
      [(10, HubitatCondition.attrChange (AttributeChangeCondition.mk0 1 "sw"))] rfl
    simpa using h
  · exact (c8_dispatch_notifies_bucket
      [(1, [(10, HubitatCondition.attrChange (AttributeChangeCondition.mk0 1 "sw"))])]
      2 "sw" (PyVal.pstr "on")).1 rfl

/- ### Association-list lemmas -/

theorem alookup_aset_self (k : Int) (v : β) (l : List (Int × β)) :
    alookup k (aset k v l) = some v := by
  induction l with
  | nil => simp [aset, alookup]
  | cons p rest ih =>
    by_cases h : p.1 = k
    · simp [aset, h, alookup]
    · simp [aset, h, alookup, ih]

theorem alookup_aset_ne (k k' : Int) (v : β) (l : List (Int × β)) (h : k' ≠ k) :
    alookup k (aset k' v l) = alookup k l := by
  induction l with
  | nil => simp [aset, alookup, h]
  | cons p rest ih =>
    by_cases hp : p.1 = k'
    · simp [aset, hp, alookup, h]
    · simp [aset, hp, alookup, ih]

theorem alookup_adel_ne (k k' : Int) (l : List (Int × β)) (h : k' ≠ k) :
    alookup k (adel k' l) = alookup k l := by
  induction l with
  | nil => simp [adel]
  | cons p rest ih =>
    by_cases hp : p.1 = k'
    · simp [adel, hp, alookup]
      rw [if_neg (by rw [hp] at *; exact h)]
    · simp [adel, hp, alookup, ih]

theorem acontains_false_iff (k : Int) (l : List (Int × β)) :
    acontains k l = false ↔ k ∉ l.map Prod.fst := by
  induction l with
  | nil => simp [acontains, alookup]
  | cons p rest ih =>
    by_cases hp : p.1 = k
    · simp [acontains, alookup, hp]
    · simp [acontains, alookup, hp, Ne.symm hp]
      simpa [acontains] using ih

theorem acontains_true_iff (k : Int) (l : List (Int × β)) :
    acontains k l = true ↔ k ∈ l.map Prod.fst := by
  rw [← not_iff_not]
  simp only [Bool.not_eq_true]
  exact acontains_false_iff k l

theorem alookup_isSome_of_mem (k : Int) (v : β) (l : List (Int × β))
    (h : (k, v) ∈ l) : acontains k l = true := by
  rw [acontains_true_iff]
  exact List.mem_map.mpr ⟨(k, v), h, rfl⟩

theorem mem_of_alookup (k : Int) (v : β) (l : List (Int × β))
    (h : alookup k l = some v) : (k, v) ∈ l := by
  induction l with
  | nil => simp [alookup] at h
  | cons p rest ih =>
    by_cases hp : p.1 = k
    · rw [alookup, if_pos hp] at h
      rcases p with ⟨a, b⟩
      have ha : a = k := hp
      have hb : b = v := by injection h
      subst ha; subst hb
      exact List.mem_cons_self _ _
    · rw [alookup, if_neg hp] at h
      exact List.mem_cons_of_mem _ (ih h)

theorem alookup_eq_none_iff (k : Int) (l : List (Int × β)) :
    alookup k l = none ↔ k ∉ l.map Prod.fst := by
  rw [← acontains_false_iff]
  unfold acontains
  cases alookup k l <;> simp

theorem aset_fresh_append (k : Int) (v : β) (l : List (Int × β))
    (h : k ∉ l.map Prod.fst) :
    aset k v l = l ++ [(k, v)] := by
  induction l with
  | nil => rfl
  | cons p rest ih =>
    simp only [List.map_cons, List.mem_cons, not_or] at h
    rw [aset, if_neg (fun hh => h.1 hh.symm)]
    rw [List.cons_append, ih h.2]

theorem aset_aset (k : Int) (v w : β) (l : List (Int × β)) :
    aset k v (aset k w l) = aset k v l := by
  induction l with
  | nil => simp [aset]
  | cons p rest ih =>
    by_cases hp : p.1 = k
    · simp [aset, hp]
    · simp [aset, hp, ih]

theorem aset_lookup_self (k : Int) (v : β) (l : List (Int × β))
    (h : alookup k l = some v) : aset k v l = l := by
  induction l with
  | nil => simp [alookup] at h
  | cons p rest ih =>
    by_cases hp : p.1 = k
    · rw [alookup, if_pos hp] at h
      cases p
      simp_all [aset]
    · rw [alookup, if_neg hp] at h
      rw [aset, if_neg hp, ih h]

theorem adel_fresh (k : Int) (l : List (Int × β)) (h : k ∉ l.map Prod.fst) :
    adel k l = l := by
  induction l with
  | nil => rfl
  | cons p rest ih =>
    simp only [List.map_cons, List.mem_cons, not_or] at h
    rw [adel, if_neg (fun hh => h.1 hh.symm), ih h.2]

theorem adel_append_last (k : Int) (v : β) (l : List (Int × β))
    (h : k ∉ l.map Prod.fst) :
    adel k (l ++ [(k, v)]) = l := by
  induction l with
  | nil => simp [adel]
  | cons p rest ih =>
    simp only [List.map_cons, List.mem_cons, not_or] at h
    rw [List.cons_append, adel, if_neg (fun hh => h.1 hh.symm), ih h.2]

theorem keys_aset_subset (k : Int) (v : β) (l : List (Int × β)) :
    (aset k v l).map Prod.fst = l.map Prod.fst
    ∨ (aset k v l).map Prod.fst = l.map Prod.fst ++ [k] := by
  induction l with
  | nil => right; rfl
  | cons p rest ih =>
    by_cases hp : p.1 = k
    · left; simp [aset, hp]
    · rcases ih with h | h
      · left; simp [aset, hp, h]
      · right; simp [aset, hp, h]

theorem nodup_keys_aset (k : Int) (v : β) (l : List (Int × β))
    (h : (l.map Prod.fst).Nodup) : ((aset k v l).map Prod.fst).Nodup := by
  induction l with
  | nil => simp [aset]
  | cons p rest ih =>
    simp only [List.map_cons, List.nodup_cons] at h
    by_cases hp : p.1 = k
    · simp only [aset, if_pos hp, List.map_cons, List.nodup_cons]
      exact ⟨hp ▸ h.1, h.2⟩
    · simp only [aset, if_neg hp, List.map_cons, List.nodup_cons]
      refine ⟨?_, ih h.2⟩
      rcases keys_aset_subset k v rest with hk | hk
      · rw [hk]; exact h.1
      · rw [hk]
        simp only [List.mem_append, List.mem_singleton, not_or]
        exact ⟨h.1, hp⟩

theorem adel_sublist (k : Int) (l : List (Int × β)) : (adel k l).Sublist l := by
  induction l with
  | nil => simp [adel]
  | cons p rest ih =>
    by_cases hp : p.1 = k
    · rw [adel, if_pos hp]
      exact List.sublist_cons_self p rest
    · rw [adel, if_neg hp]
      exact ih.cons₂ p

theorem nodup_keys_adel (k : Int) (l : List (Int × β))
    (h : (l.map Prod.fst).Nodup) : ((adel k l).map Prod.fst).Nodup :=
  ((adel_sublist k l).map Prod.fst).nodup h

theorem mem_adel_iff (k : Int) (x : Int × β) (l : List (Int × β))
    (h : (l.map Prod.fst).Nodup) :
    x ∈ adel k l ↔ x ∈ l ∧ x.1 ≠ k := by
  induction l with
  | nil => simp [adel]
  | cons p rest ih =>
    simp only [List.map_cons, List.nodup_cons] at h
    by_cases hp : p.1 = k
    · rw [adel, if_pos hp]
      constructor
      · intro hx
        refine ⟨List.mem_cons_of_mem _ hx, ?_⟩
        intro hk
        apply h.1
        rw [hp, ← hk]
        exact List.mem_map.mpr ⟨x, hx, rfl⟩
      · rintro ⟨hx, hne⟩
        rcases List.mem_cons.mp hx with rfl | hx2
        · exact absurd hp hne
        · exact hx2
    · rw [adel, if_neg hp]
      simp only [List.mem_cons]
      rw [ih h.2]
      constructor
      · rintro (rfl | ⟨hx2, hne⟩)
        · exact ⟨Or.inl rfl, hp⟩
        · exact ⟨Or.inr hx2, hne⟩
      · rintro ⟨rfl | hx2, hne⟩
        · exact Or.inl rfl
        · exact Or.inr ⟨hx2, hne⟩

theorem acontains_adel_self (k : Int) (l : List (Int × β))
    (h : (l.map Prod.fst).Nodup) : acontains k (adel k l) = false := by
  rw [acontains_false_iff]
  intro hk
  rcases List.mem_map.mp hk with ⟨x, hx, hx1⟩
  exact ((mem_adel_iff k x l h).mp hx).2 hx1

theorem acontains_append_right (k : Int) (v : β) (l : List (Int × β)) :
    acontains k (l ++ [(k, v)]) = true := by
  induction l with
  | nil => simp [acontains, alookup]
  | cons p rest ih =>
    by_cases hp : p.1 = k
    · simp [acontains, alookup, hp]
    · simpa [acontains, alookup, hp] using ih

theorem adel_append_of_fresh (k : Int) (v : β) (l : List (Int × β))
    (h : k ∉ l.map Prod.fst) : adel k (l ++ [(k, v)]) = l :=
  adel_append_last k v l h

/- ### Characterizing `register_condition` and `unregister_condition` -/

theorem alookup_adel_self (k : Int) (l : List (Int × β))
    (h : (l.map Prod.fst).Nodup) : alookup k (adel k l) = none := by
  have hc := acontains_adel_self k l h
  unfold acontains at hc
  cases hh : alookup k (adel k l)
  · rfl
  · rw [hh] at hc; simp at hc

theorem regDevice_eq (c : RegCond) (idx : CondIndex) (e : Int) :
    registerDevice c idx e =
      match alookup e idx with
      | none => aset e [(c.instance_id, c)] idx
      | some be =>
        if acontains c.instance_id be then idx
        else aset e (be ++ [(c.instance_id, c)]) idx := by
  unfold registerDevice
  cases hb : alookup e idx with
  | none =>
    have hc : acontains e idx = false := by unfold acontains; rw [hb]; rfl
    rw [hc]
    simp only [Bool.false_eq_true, if_false]
    rw [alookup_aset_self]
    simp only [Option.getD_some]
    have : acontains c.instance_id ([] : List (Int × RegCond)) = false := rfl
    rw [this]
    simp only [Bool.false_eq_true, if_false]
    show aset e (aset c.instance_id c []) (aset e [] idx) = _
    rw [aset_aset]
    rfl
  | some be =>
    have hc : acontains e idx = true := by unfold acontains; rw [hb]; rfl
    rw [hc]
    simp only [if_true]
    rw [hb]
    simp only [Option.getD_some]
    by_cases hib : acontains c.instance_id be = true
    · rw [hib]; simp
    · have hib' : acontains c.instance_id be = false := by
        cases hx : acontains c.instance_id be
        · rfl
        · exact absurd hx hib
      rw [hib']
      simp only [Bool.false_eq_true, if_false]
      rw [aset_fresh_append c.instance_id c be ((acontains_false_iff _ _).mp hib')]

theorem alookup_regDevice (c : RegCond) (d e : Int) (idx : CondIndex) :
    alookup d (registerDevice c idx e) =
      if d = e then some (regBucketF c (alookup d idx)) else alookup d idx := by
  rw [regDevice_eq]
  by_cases hde : d = e
  · subst hde
    cases hb : alookup d idx with
    | none => simp [regBucketF, alookup_aset_self]
    | some be =>
      simp only [regBucketF]
      by_cases hib : acontains c.instance_id be = true
      · simp [hib, hb]
      · have hib' : acontains c.instance_id be = false := by
          cases hx : acontains c.instance_id be
          · rfl
          · exact absurd hx hib
        simp [hib', alookup_aset_self]
  · cases hb : alookup e idx with
    | none => simp [if_neg hde, alookup_aset_ne d e _ idx (fun hh => hde hh.symm)]
    | some be =>
      by_cases hib : acontains c.instance_id be = true
      · simp [hib, if_neg hde]
      · have hib' : acontains c.instance_id be = false := by
          cases hx : acontains c.instance_id be
          · rfl
          · exact absurd hx hib
        simp [hib', if_neg hde, alookup_aset_ne d e _ idx (fun hh => hde hh.symm)]

theorem acontains_regBucketF (c : RegCond) (ob : Option (List (Int × RegCond))) :
    acontains c.instance_id (regBucketF c ob) = true := by
  cases ob with
  | none => simp [regBucketF, acontains, alookup]
  | some b =>
    simp only [regBucketF]
    by_cases hib : acontains c.instance_id b = true
    · simp [hib]
    · have hib' : acontains c.instance_id b = false := by
        cases hx : acontains c.instance_id b
        · rfl
        · exact absurd hx hib
      rw [hib']
      simp only [Bool.false_eq_true, if_false]
      exact acontains_append_right _ _ _

theorem regBucketF_idem (c : RegCond) (ob : Option (List (Int × RegCond))) :
    regBucketF c (some (regBucketF c ob)) = regBucketF c ob := by
  show (if acontains c.instance_id (regBucketF c ob) then regBucketF c ob
        else regBucketF c ob ++ [(c.instance_id, c)]) = regBucketF c ob
  rw [acontains_regBucketF]
  simp

theorem alookup_reg_fold (c : RegCond) (d : Int) (ds : List Int) :
    ∀ idx : CondIndex,
    alookup d (ds.foldl (registerDevice c) idx)
      = if d ∈ ds then some (regBucketF c (alookup d idx)) else alookup d idx := by
  induction ds with
  | nil => intro idx; simp
  | cons e ds ih =>
    intro idx
    rw [List.foldl_cons, ih (registerDevice c idx e), alookup_regDevice]
    by_cases hde : d = e
    · subst hde
      rw [if_pos rfl]
      by_cases hds : d ∈ ds
      · rw [if_pos hds, if_pos (List.mem_cons_self d ds), regBucketF_idem]
      · rw [if_neg hds, if_pos (List.mem_cons_self d ds)]
    · rw [if_neg hde]
      by_cases hds : d ∈ ds
      · rw [if_pos hds, if_pos (List.mem_cons.mpr (Or.inr hds))]
      · rw [if_neg hds, if_neg (by
          intro hmem
          rcases List.mem_cons.mp hmem with h | h
          · exact hde h
          · exact hds h)]

theorem alookup_register (c : RegCond) (d : Int) (idx : CondIndex) :
    alookup d (register_condition idx c)
      = if d ∈ c.device_ids then some (regBucketF c (alookup d idx))
        else alookup d idx :=
  alookup_reg_fold c d c.device_ids idx

theorem regDevice_noop (c : RegCond) (idx : CondIndex) (d : Int) (b : List (Int × RegCond))
    (hb : alookup d idx = some b) (hib : acontains c.instance_id b = true) :
    registerDevice c idx d = idx := by
  rw [regDevice_eq, hb]
  simp [hib]

theorem reg_fold_noop (c : RegCond) (ds : List Int) :
    ∀ idx : CondIndex,
    (∀ d ∈ ds, ∃ b, alookup d idx = some b ∧ acontains c.instance_id b = true) →
    ds.foldl (registerDevice c) idx = idx := by
  induction ds with
  | nil => intro idx _; rfl
  | cons e ds ih =>
    intro idx h
    rcases h e (List.mem_cons_self e ds) with ⟨b, hb, hib⟩
    rw [List.foldl_cons, regDevice_noop c idx e b hb hib]
    exact ih idx (fun d hd => h d (List.mem_cons.mpr (Or.inr hd)))

theorem unregDevice_eq (c : RegCond) (idx : CondIndex) (e : Int) :
    unregisterDevice c idx e =
      match alookup e idx with
      | none => idx
      | some be =>
        if acontains c.instance_id be then
          if (adel c.instance_id be).length = 0 then adel e idx
          else aset e (adel c.instance_id be) idx
        else idx := rfl

theorem alookup_unregDevice (c : RegCond) (d e : Int) (idx : CondIndex)
    (houter : OuterNodup idx) :
    alookup d (unregisterDevice c idx e) =
      if d = e then unregBucketF c (alookup d idx) else alookup d idx := by
  rw [unregDevice_eq]
  by_cases hde : d = e
  · subst hde
    cases hb : alookup d idx with
    | none => simp [unregBucketF, hb]
    | some be =>
      by_cases hib : acontains c.instance_id be = true
      · by_cases hlen : (adel c.instance_id be).length = 0
        · simp [unregBucketF, hib, hlen, hb, alookup_adel_self d idx houter]
        · simp [unregBucketF, hib, hlen, hb, alookup_aset_self]
      · have hib' : acontains c.instance_id be = false := by
          cases hx : acontains c.instance_id be
          · rfl
          · exact absurd hx hib
        simp [unregBucketF, hib', hb]
  · cases hb : alookup e idx with
    | none => simp [if_neg hde]
    | some be =>
      by_cases hib : acontains c.instance_id be = true
      · by_cases hlen : (adel c.instance_id be).length = 0
        · simp [hib, hlen, if_neg hde, alookup_adel_ne d e idx (fun hh => hde hh.symm)]
        · simp [hib, hlen, if_neg hde, alookup_aset_ne d e _ idx (fun hh => hde hh.symm)]
      · have hib' : acontains c.instance_id be = false := by
          cases hx : acontains c.instance_id be
          · rfl
          · exact absurd hx hib
        simp [hib', if_neg hde]

theorem unregBucketF_idem (c : RegCond) (ob : Option (List (Int × RegCond)))
    (h : ∀ b, ob = some b → (b.map Prod.fst).Nodup) :
    unregBucketF c (unregBucketF c ob) = unregBucketF c ob := by
  cases ob with
  | none => rfl
  | some b =>
    by_cases hib : acontains c.instance_id b = true
    · by_cases hlen : (adel c.instance_id b).length = 0
      · simp [unregBucketF, hib, hlen]
      · simp only [unregBucketF, hib, if_true, hlen, if_false]
        rw [acontains_adel_self c.instance_id b (h b rfl)]
        simp
    · have hib' : acontains c.instance_id b = false := by
        cases hx : acontains c.instance_id b
        · rfl
        · exact absurd hx hib
      simp [unregBucketF, hib']

theorem outer_nodup_regDevice (c : RegCond) (idx : CondIndex) (e : Int)
    (h : OuterNodup idx) : OuterNodup (registerDevice c idx e) := by
  rw [regDevice_eq]
  cases alookup e idx with
  | none => exact nodup_keys_aset e _ idx h
  | some be =>
    by_cases hib : acontains c.instance_id be = true
    · simpa [hib]
    · have hib' : acontains c.instance_id be = false := by
        cases hx : acontains c.instance_id be
        · rfl
        · exact absurd hx hib
      simp only [hib', Bool.false_eq_true, if_false]
      exact nodup_keys_aset e _ idx h

theorem outer_nodup_unregDevice (c : RegCond) (idx : CondIndex) (e : Int)
    (h : OuterNodup idx) : OuterNodup (unregisterDevice c idx e) := by
  rw [unregDevice_eq]
  cases alookup e idx with
  | none => exact h
  | some be =>
    by_cases hib : acontains c.instance_id be = true
    · by_cases hlen : (adel c.instance_id be).length = 0
      · simpa [hib, hlen] using nodup_keys_adel e idx h
      · simpa [hib, hlen] using nodup_keys_aset e _ idx h
    · have hib' : acontains c.instance_id be = false := by
        cases hx : acontains c.instance_id be
        · rfl
        · exact absurd hx hib
      simpa [hib'] using h

theorem buckets_nodup_regBucketF (c : RegCond) (ob : Option (List (Int × RegCond)))
    (h : ∀ b, ob = some b → (b.map Prod.fst).Nodup) :
    ((regBucketF c ob).map Prod.fst).Nodup := by
  cases ob with
  | none => simp [regBucketF]
  | some b =>
    by_cases hib : acontains c.instance_id b = true
    · simpa [regBucketF, hib] using h b rfl
    · have hib' : acontains c.instance_id b = false := by
        cases hx : acontains c.instance_id b
        · rfl
        · exact absurd hx hib
      simp only [regBucketF, hib', Bool.false_eq_true, if_false, List.map_append]
      rw [List.nodup_append]
      refine ⟨h b rfl, by simp, ?_⟩
      intro x hx hx2
      simp only [List.map_cons, List.map_nil, List.mem_singleton] at hx2
      subst hx2
      exact ((acontains_false_iff _ _).mp hib') hx

theorem buckets_nodup_regDevice (c : RegCond) (idx : CondIndex) (e : Int)
    (h : BucketsNodup idx) : BucketsNodup (registerDevice c idx e) := by
  intro d b hb
  rw [alookup_regDevice] at hb
  by_cases hde : d = e
  · rw [if_pos hde] at hb
    injection hb with hb
    subst hb
    exact buckets_nodup_regBucketF c _ (fun b' hb' => h d b' hb')
  · rw [if_neg hde] at hb
    exact h d b hb

theorem buckets_nodup_unregDevice (c : RegCond) (idx : CondIndex) (e : Int)
    (houter : OuterNodup idx) (h : BucketsNodup idx) :
    BucketsNodup (unregisterDevice c idx e) := by
  intro d b hb
  rw [alookup_unregDevice c d e idx houter] at hb
  by_cases hde : d = e
  · rw [if_pos hde] at hb
    cases hob : alookup d idx with
    | none => rw [hob] at hb; simp [unregBucketF] at hb
    | some b0 =>
      rw [hob] at hb
      by_cases hib : acontains c.instance_id b0 = true
      · by_cases hlen : (adel c.instance_id b0).length = 0
        · simp [unregBucketF, hib, hlen] at hb
        · simp only [unregBucketF, hib, if_true, hlen, if_false] at hb
          injection hb with hb
          subst hb
          exact nodup_keys_adel _ _ (h d b0 hob)
      · have hib' : acontains c.instance_id b0 = false := by
          cases hx : acontains c.instance_id b0
          · rfl
          · exact absurd hx hib
        simp only [unregBucketF, hib', Bool.false_eq_true, if_false] at hb
        injection hb with hb
        subst hb
        exact h d b0 hob
  · rw [if_neg hde] at hb
    exact h d b hb

theorem alookup_unreg_fold (c : RegCond) (d : Int) (ds : List Int) :
    ∀ idx : CondIndex, OuterNodup idx → BucketsNodup idx →
    alookup d (ds.foldl (unregisterDevice c) idx)
      = if d ∈ ds then unregBucketF c (alookup d idx) else alookup d idx := by
  induction ds with
  | nil => intro idx _ _; simp
  | cons e ds ih =>
    intro idx houter hbuckets
    rw [List.foldl_cons,
      ih (unregisterDevice c idx e) (outer_nodup_unregDevice c idx e houter)
        (buckets_nodup_unregDevice c idx e houter hbuckets),
      alookup_unregDevice c d e idx houter]
    by_cases hde : d = e
    · subst hde
      by_cases hds : d ∈ ds
      · simp only [if_pos rfl, if_pos hds, if_pos (List.mem_cons_self d ds)]
        exact unregBucketF_idem c _ (fun b hb => hbuckets d b hb)
      · simp only [if_pos rfl, if_neg hds, if_pos (List.mem_cons_self d ds)]
        simp
    · have hne : (d = e) = False := by simp [hde]
      by_cases hds : d ∈ ds
      · simp only [hne, if_false, if_pos hds, if_pos (List.mem_cons.mpr (Or.inr hds))]
      · have hmem : d ∉ e :: ds := by
          intro hmem
          rcases List.mem_cons.mp hmem with h | h
          · exact hde h
          · exact hds h
        simp only [hne, if_false, if_neg hds, if_neg hmem]

theorem alookup_unregister (c : RegCond) (d : Int) (idx : CondIndex)
    (houter : OuterNodup idx) (hbuckets : BucketsNodup idx) :
    alookup d (unregister_condition idx c)
      = if d ∈ c.device_ids then unregBucketF c (alookup d idx)
        else alookup d idx :=
  alookup_unreg_fold c d c.device_ids idx houter hbuckets

theorem acontains_exists (k : Int) (l : List (Int × β)) (h : acontains k l = true) :
    ∃ v, alookup k l = some v := by
  unfold acontains at h
  cases hb : alookup k l
  · rw [hb] at h; simp at h
  · exact ⟨_, rfl⟩

theorem mem_regBucketF (c : RegCond) (ob : Option (List (Int × RegCond)))
    (p : Int × RegCond) (h : p ∈ regBucketF c ob) :
    (∃ b0, ob = some b0 ∧ p ∈ b0) ∨ p = (c.instance_id, c) := by
  cases ob with
  | none =>
    simp only [regBucketF, List.mem_singleton] at h
    exact Or.inr h
  | some b0 =>
    simp only [regBucketF] at h
    by_cases hib : acontains c.instance_id b0 = true
    · rw [hib] at h
      simp only [if_true] at h
      exact Or.inl ⟨b0, rfl, h⟩
    · have hib' : acontains c.instance_id b0 = false := by
        cases hx : acontains c.instance_id b0
        · rfl
        · exact absurd hx hib
      rw [hib'] at h
      simp only [Bool.false_eq_true, if_false, List.mem_append, List.mem_singleton] at h
      rcases h with h | h
      · exact Or.inl ⟨b0, rfl, h⟩
      · exact Or.inr h

theorem self_mem_regBucketF (c : RegCond) (ob : Option (List (Int × RegCond)))
    (hinst : ∀ b0, ob = some b0 → ∀ p ∈ b0, p.1 = c.instance_id → p.2 = c) :
    (c.instance_id, c) ∈ regBucketF c ob := by
  cases ob with
  | none => simp [regBucketF]
  | some b0 =>
    simp only [regBucketF]
    by_cases hib : acontains c.instance_id b0 = true
    · rw [hib]
      simp only [if_true]
      rcases acontains_exists _ _ hib with ⟨v, hv⟩
      have hmem := mem_of_alookup _ _ _ hv
      have : v = c := hinst b0 rfl (c.instance_id, v) hmem rfl
      rw [this] at hmem
      exact hmem
    · have hib' : acontains c.instance_id b0 = false := by
        cases hx : acontains c.instance_id b0
        · rfl
        · exact absurd hx hib
      rw [hib']
      simp

theorem count_snd_eq_one (c : RegCond) (b : List (Int × RegCond))
    (hkey : ∀ p ∈ b, p.1 = p.2.instance_id) (hnd : (b.map Prod.fst).Nodup)
    (hmem : (c.instance_id, c) ∈ b) :
    (b.map Prod.snd).count c = 1 := by
  induction b with
  | nil => simp at hmem
  | cons p rest ih =>
    rcases p with ⟨k, v⟩
    simp only [List.map_cons, List.nodup_cons] at hnd
    by_cases hvc : v = c
    · subst hvc
      have hk : k = v.instance_id := hkey (k, v) (List.mem_cons_self _ _)
      rw [List.map_cons, List.count_cons_self]
      have hzero : (rest.map Prod.snd).count v = 0 := by
        rw [List.count_eq_zero]
        intro hc
        rcases List.mem_map.mp hc with ⟨q, hq, hq2⟩
        have hqk : q.1 = k := by
          rw [hkey q (List.mem_cons_of_mem _ hq), hq2, ← hk]
        apply hnd.1
        rw [← hqk]
        exact List.mem_map.mpr ⟨q, hq, rfl⟩
      rw [hzero]
    · rw [List.map_cons, List.count_cons_of_ne (fun hh => hvc hh.symm)]
      rcases List.mem_cons.mp hmem with heq | hmem2
      · exact absurd (congrArg Prod.snd heq).symm hvc
      · exact ih (fun q hq => hkey q (List.mem_cons_of_mem _ hq)) hnd.2 hmem2

/-- C6 (confirmed): `register_condition` is idempotent — registering the same
condition twice produces exactly the index of a single registration (the
second pass is a structural no-op) — and in the resulting index the bucket
of each of the condition's devices holds that condition exactly once, so one
dispatched event notifies it exactly once.  The hypotheses say the starting
index is a well-formed plugin index: bucket keys are unique, every entry is
keyed by its condition's `instance_id`, and an entry keyed by this
condition's `instance_id` holds this condition. -/
theorem c6_register_idempotent (idx : CondIndex) (c : RegCond)
    (hbn : BucketsNodup idx)
    (hkeyed : ∀ d b, alookup d idx = some b → ∀ p ∈ b, p.1 = p.2.instance_id)
    (hinst : ∀ d b, alookup d idx = some b → ∀ p ∈ b, p.1 = c.instance_id → p.2 = c) :
    register_condition (register_condition idx c) c = register_condition idx c
    ∧ ∀ d ∈ c.device_ids, ∀ b, alookup d (register_condition idx c) = some b →
        (b.map Prod.snd).count c = 1 := by
  constructor
  · apply reg_fold_noop
    intro d hd
    refine ⟨regBucketF c (alookup d idx), ?_, acontains_regBucketF c _⟩
    rw [alookup_register, if_pos hd]
  · intro d hd b hb
    rw [alookup_register, if_pos hd] at hb
    injection hb with hb
    subst hb
    apply count_snd_eq_one
    · intro p hp
      rcases mem_regBucketF c _ p hp with ⟨b0, hb0, hpb0⟩ | rfl
      · exact hkeyed d b0 hb0 p hpb0
      · rfl
    · exact buckets_nodup_regBucketF c _ (fun b' hb' => hbn d b' hb')
    · exact self_mem_regBucketF c _ (fun b0 hb0 => hinst d b0 hb0)

/-- C6, witness: registering `⟨5, [1, 2]⟩` once from the empty index then a
second time leaves the index unchanged, and device 1's bucket counts the
condition exactly once. -/
theorem c6_witness :
    register_condition (register_condition [] ⟨5, [1, 2]⟩) ⟨5, [1, 2]⟩
      = register_condition [] ⟨5, [1, 2]⟩
    ∧ (([(5, (⟨5, [1, 2]⟩ : RegCond))].map Prod.snd).count ⟨5, [1, 2]⟩ = 1) := by
  have h := c6_register_idempotent [] ⟨5, [1, 2]⟩
    (fun d b hb => by simp [alookup] at hb)
    (fun d b hb => by simp [alookup] at hb)
    (fun d b hb => by simp [alookup] at hb)
  exact ⟨h.1, h.2 1 (by decide) [(5, ⟨5, [1, 2]⟩)] (by decide)⟩

theorem acontains_append_left (k : Int) (l l' : List (Int × β))
    (h : acontains k l = true) : acontains k (l ++ l') = true := by
  induction l with
  | nil => simp [acontains, alookup] at h
  | cons p rest ih =>
    by_cases hp : p.1 = k
    · simp [acontains, alookup, hp]
    · simp only [acontains, alookup, List.cons_append, if_neg hp] at h ⊢
      exact ih h

theorem acontains_regBucketF_mono (c : RegCond) (k : Int) (b : List (Int × RegCond))
    (h : acontains k b = true) :
    acontains k (regBucketF c (some b)) = true := by
  simp only [regBucketF]
  by_cases hib : acontains c.instance_id b = true
  · simp only [hib, if_true]
    exact h
  · have hib' : acontains c.instance_id b = false := by
      cases hx : acontains c.instance_id b
      · rfl
      · exact absurd hx hib
    rw [hib']
    simp only [Bool.false_eq_true, if_false]
    exact acontains_append_left k b _ h

theorem InjOnInst_mono (l l' : List RegCond) (hsub : ∀ x ∈ l, x ∈ l')
    (h : InjOnInst l') : InjOnInst l :=
  fun c hc c' hc' heq => h c (hsub c hc) c' (hsub c' hc') heq

theorem activeStep_mem (A : List RegCond) (op : TraceOp) (x : RegCond)
    (hx : x ∈ activeStep A op) : x ∈ A ∨ x = op.cond := by
  cases op with
  | reg c =>
    simp only [activeStep] at hx
    by_cases hc : c ∈ A
    · rw [if_pos hc] at hx; exact Or.inl hx
    · rw [if_neg hc] at hx
      rcases List.mem_append.mp hx with h | h
      · exact Or.inl h
      · exact Or.inr (List.mem_singleton.mp h)
  | unreg c =>
    simp only [activeStep] at hx
    exact Or.inl (List.mem_of_mem_filter hx)

theorem outer_nodup_reg_fold (c : RegCond) (ds : List Int) :
    ∀ idx : CondIndex, OuterNodup idx → OuterNodup (ds.foldl (registerDevice c) idx) := by
  induction ds with
  | nil => intro idx h; exact h
  | cons e ds ih =>
    intro idx h
    rw [List.foldl_cons]
    exact ih _ (outer_nodup_regDevice c idx e h)

theorem buckets_nodup_reg_fold (c : RegCond) (ds : List Int) :
    ∀ idx : CondIndex, BucketsNodup idx → BucketsNodup (ds.foldl (registerDevice c) idx) := by
  induction ds with
  | nil => intro idx h; exact h
  | cons e ds ih =>
    intro idx h
    rw [List.foldl_cons]
    exact ih _ (buckets_nodup_regDevice c idx e h)

theorem wf2_unreg_fold (c : RegCond) (ds : List Int) :
    ∀ idx : CondIndex, OuterNodup idx → BucketsNodup idx →
    OuterNodup (ds.foldl (unregisterDevice c) idx)
    ∧ BucketsNodup (ds.foldl (unregisterDevice c) idx) := by
  induction ds with
  | nil => intro idx h1 h2; exact ⟨h1, h2⟩
  | cons e ds ih =>
    intro idx h1 h2
    rw [List.foldl_cons]
    exact ih _ (outer_nodup_unregDevice c idx e h1) (buckets_nodup_unregDevice c idx e h1 h2)

theorem inv_register (A : List RegCond) (idx : CondIndex) (c : RegCond)
    (hInv : IndexInv A idx) :
    IndexInv (activeStep A (TraceOp.reg c)) (register_condition idx c) := by
  have hcA : c ∈ activeStep A (TraceOp.reg c) := by
    simp only [activeStep]
    by_cases hc : c ∈ A
    · rw [if_pos hc]; exact hc
    · rw [if_neg hc]; exact List.mem_append.mpr (Or.inr (List.mem_singleton.mpr rfl))
  have hsubA : ∀ x ∈ A, x ∈ activeStep A (TraceOp.reg c) := by
    intro x hx
    simp only [activeStep]
    by_cases hc : c ∈ A
    · rw [if_pos hc]; exact hx
    · rw [if_neg hc]; exact List.mem_append.mpr (Or.inl hx)
  constructor
  · intro d b hb
    rw [alookup_register] at hb
    by_cases hd : d ∈ c.device_ids
    · rw [if_pos hd] at hb
      injection hb with hb
      subst hb
      intro iid c' hp
      rcases mem_regBucketF c _ (iid, c') hp with ⟨b0, hb0, hpb0⟩ | heq
      · rcases hInv.sound d b0 hb0 iid c' hpb0 with ⟨h1, h2, h3⟩
        exact ⟨hsubA c' h1, h2, h3⟩
      · have h1 : iid = c.instance_id := congrArg Prod.fst heq
        have h2 : c' = c := congrArg Prod.snd heq
        subst h2
        exact ⟨hcA, h1, hd⟩
    · rw [if_neg hd] at hb
      intro iid c' hp
      rcases hInv.sound d b hb iid c' hp with ⟨h1, h2, h3⟩
      exact ⟨hsubA c' h1, h2, h3⟩
  · intro c' hc' d hd
    rcases activeStep_mem A (TraceOp.reg c) c' hc' with hcA' | heq
    · rcases hInv.complete c' hcA' d hd with ⟨b, hb, hcont⟩
      rw [alookup_register]
      by_cases hdc : d ∈ c.device_ids
      · rw [if_pos hdc, hb]
        exact ⟨_, rfl, acontains_regBucketF_mono c _ b hcont⟩
      · rw [if_neg hdc]
        exact ⟨b, hb, hcont⟩
    · have heq' : c' = c := heq
      rw [heq'] at hd ⊢
      rw [alookup_register, if_pos hd]
      exact ⟨_, rfl, acontains_regBucketF _ _⟩
  · exact outer_nodup_reg_fold c c.device_ids idx hInv.outer_nodup
  · exact buckets_nodup_reg_fold c c.device_ids idx hInv.buckets_nodup
  · intro d b hb
    rw [alookup_register] at hb
    by_cases hd : d ∈ c.device_ids
    · rw [if_pos hd] at hb
      injection hb with hb
      subst hb
      cases hob : alookup d idx with
      | none => simp [regBucketF]
      | some b0 =>
        simp only [regBucketF]
        by_cases hib : acontains c.instance_id b0 = true
        · rw [hib]
          simpa using hInv.buckets_nonempty d b0 hob
        · have hib' : acontains c.instance_id b0 = false := by
            cases hx : acontains c.instance_id b0
            · rfl
            · exact absurd hx hib
          rw [hib']
          simp
    · rw [if_neg hd] at hb
      exact hInv.buckets_nonempty d b hb

theorem inv_unregister (A : List RegCond) (idx : CondIndex) (c : RegCond)
    (hInv : IndexInv A idx)
    (hinj : ∀ c' ∈ A, c'.instance_id = c.instance_id → c' = c) :
    IndexInv (A.filter (fun x => x ≠ c)) (unregister_condition idx c) := by
  constructor
  · intro d b hb
    rw [alookup_unregister c d idx hInv.outer_nodup hInv.buckets_nodup] at hb
    by_cases hd : d ∈ c.device_ids
    · rw [if_pos hd] at hb
      cases hob : alookup d idx with
      | none => rw [hob] at hb; simp [unregBucketF] at hb
      | some b0 =>
        rw [hob] at hb
        by_cases hib : acontains c.instance_id b0 = true
        · by_cases hlen : (adel c.instance_id b0).length = 0
          · simp [unregBucketF, hib, hlen] at hb
          · simp only [unregBucketF, hib, if_true, hlen, if_false] at hb
            injection hb with hb
            subst hb
            intro iid c' hp
            rcases (mem_adel_iff c.instance_id (iid, c') b0
              (hInv.buckets_nodup d b0 hob)).mp hp with ⟨hpb0, hne⟩
            rcases hInv.sound d b0 hob iid c' hpb0 with ⟨h1, h2, h3⟩
            have hnec : c' ≠ c := by
              intro heq
              apply hne
              rw [h2, heq]
            exact ⟨List.mem_filter.mpr ⟨h1, by simpa using hnec⟩, h2, h3⟩
        · have hib' : acontains c.instance_id b0 = false := by
            cases hx : acontains c.instance_id b0
            · rfl
            · exact absurd hx hib
          simp only [unregBucketF, hib', Bool.false_eq_true, if_false] at hb
          injection hb with hb
          subst hb
          intro iid c' hp
          rcases hInv.sound d b0 hob iid c' hp with ⟨h1, h2, h3⟩
          have hnec : c' ≠ c := by
            intro heq
            have : acontains c.instance_id b0 = true := by
              have := alookup_isSome_of_mem iid c' b0 hp
              rw [h2, heq] at this
              exact this
            rw [this] at hib'
            exact absurd hib' (by simp)
          exact ⟨List.mem_filter.mpr ⟨h1, by simpa using hnec⟩, h2, h3⟩
    · rw [if_neg hd] at hb
      intro iid c' hp
      rcases hInv.sound d b hb iid c' hp with ⟨h1, h2, h3⟩
      have hnec : c' ≠ c := by
        intro heq
        apply hd
        rw [← heq]
        exact h3
      exact ⟨List.mem_filter.mpr ⟨h1, by simpa using hnec⟩, h2, h3⟩
  · intro c' hc' d hd
    have hc'A : c' ∈ A := List.mem_of_mem_filter hc'
    have hne : c' ≠ c := by
      have := List.mem_filter.mp hc'
      simpa using this.2
    rcases hInv.complete c' hc'A d hd with ⟨b0, hb0, hcont⟩
    rw [alookup_unregister c d idx hInv.outer_nodup hInv.buckets_nodup]
    by_cases hdc : d ∈ c.device_ids
    · rw [if_pos hdc, hb0]
      by_cases hib : acontains c.instance_id b0 = true
      · have hneid : c'.instance_id ≠ c.instance_id := by
          intro heq
          exact hne (hinj c' hc'A heq)
        rcases acontains_exists _ _ hcont with ⟨v, hv⟩
        have hmem0 := mem_of_alookup _ _ _ hv
        have hmem1 : (c'.instance_id, v) ∈ adel c.instance_id b0 :=
          (mem_adel_iff c.instance_id (c'.instance_id, v) b0
            (hInv.buckets_nodup d b0 hb0)).mpr ⟨hmem0, hneid⟩
        have hcont1 : acontains c'.instance_id (adel c.instance_id b0) = true :=
          alookup_isSome_of_mem _ _ _ hmem1
        by_cases hlen : (adel c.instance_id b0).length = 0
        · exfalso
          rw [List.length_eq_zero.mp hlen] at hmem1
          simp at hmem1
        · refine ⟨adel c.instance_id b0, ?_, hcont1⟩
          simp only [unregBucketF, hib, if_true, hlen, if_false]
      · have hib' : acontains c.instance_id b0 = false := by
          cases hx : acontains c.instance_id b0
          · rfl
          · exact absurd hx hib
        refine ⟨b0, ?_, hcont⟩
        simp only [unregBucketF, hib', Bool.false_eq_true, if_false]
    · rw [if_neg hdc]
      exact ⟨b0, hb0, hcont⟩
  · exact (wf2_unreg_fold c c.device_ids idx hInv.outer_nodup hInv.buckets_nodup).1
  · exact (wf2_unreg_fold c c.device_ids idx hInv.outer_nodup hInv.buckets_nodup).2
  · intro d b hb
    rw [alookup_unregister c d idx hInv.outer_nodup hInv.buckets_nodup] at hb
    by_cases hd : d ∈ c.device_ids
    · rw [if_pos hd] at hb
      cases hob : alookup d idx with
      | none => rw [hob] at hb; simp [unregBucketF] at hb
      | some b0 =>
        rw [hob] at hb
        by_cases hib : acontains c.instance_id b0 = true
        · by_cases hlen : (adel c.instance_id b0).length = 0
          · simp [unregBucketF, hib, hlen] at hb
          · simp only [unregBucketF, hib, if_true, hlen, if_false] at hb
            injection hb with hb
            subst hb
            intro hnil
            apply hlen
            rw [hnil]
            rfl
        · have hib' : acontains c.instance_id b0 = false := by
            cases hx : acontains c.instance_id b0
            · rfl
            · exact absurd hx hib
          simp only [unregBucketF, hib', Bool.false_eq_true, if_false] at hb
          injection hb with hb
          subst hb
          exact hInv.buckets_nonempty d b0 hob
    · rw [if_neg hd] at hb
      exact hInv.buckets_nonempty d b hb

theorem trace_inv (ops : List TraceOp) :
    ∀ (A : List RegCond) (idx : CondIndex), IndexInv A idx →
    InjOnInst (A ++ ops.map TraceOp.cond) →
    IndexInv (runActive ops A) (runTrace ops idx) := by
  induction ops with
  | nil => intro A idx hInv _; exact hInv
  | cons op ops ih =>
    intro A idx hInv hinj
    show IndexInv (runActive ops (activeStep A op)) (runTrace ops (applyOp idx op))
    have hinj' : InjOnInst (activeStep A op ++ ops.map TraceOp.cond) := by
      apply InjOnInst_mono _ (A ++ (op :: ops).map TraceOp.cond) _ hinj
      intro x hx
      rcases List.mem_append.mp hx with hxA | hxops
      · rcases activeStep_mem A op x hxA with h | h
        · exact List.mem_append.mpr (Or.inl h)
        · refine List.mem_append.mpr (Or.inr ?_)
          rw [List.map_cons]
          rw [h]
          exact List.mem_cons_self _ _
      · refine List.mem_append.mpr (Or.inr ?_)
        rw [List.map_cons]
        exact List.mem_cons_of_mem _ hxops
    cases op with
    | reg c => exact ih _ _ (inv_register A idx c hInv) hinj'
    | unreg c =>
      refine ih _ _ (inv_unregister A idx c hInv ?_) hinj'
      intro c' hc' heq
      have h1 : c' ∈ A ++ (TraceOp.unreg c :: ops).map TraceOp.cond :=
        List.mem_append.mpr (Or.inl hc')
      have h2 : c ∈ A ++ (TraceOp.unreg c :: ops).map TraceOp.cond := by
        refine List.mem_append.mpr (Or.inr ?_)
        rw [List.map_cons]
        exact List.mem_cons_self _ _
      exact hinj c' h1 c h2 heq

/-- C1 (confirmed): over any call trace from the empty index, a device id has
a bucket in the Condition Index iff some currently-registered condition
lists it in `get_device_ids()` — in particular, unregistering the last
condition of a device removes that device's bucket.  The hypothesis is the
spec's data-model invariant that `instance_id` is unique per registration
(the instance id determines the condition across the trace); conditions are
modelled by exactly the two observations the index code uses,
`instance_id` and `get_device_ids()`, so an unregister automatically carries
the same device-id list the condition registered with. -/
theorem c1_index_contains_iff (ops : List TraceOp)
    (hinj : InjOnInst (ops.map TraceOp.cond)) (d : Int) :
    acontains d (runTrace ops []) = true
      ↔ ∃ c ∈ runActive ops [], d ∈ c.device_ids := by
  have hInv : IndexInv (runActive ops []) (runTrace ops []) := by
    apply trace_inv ops [] []
    · constructor
      · intro d' b hb; simp [alookup] at hb
      · intro c hc; simp at hc
      · simp [OuterNodup]
      · intro d' b hb; simp [alookup] at hb
      · intro d' b hb; simp [alookup] at hb
    · simpa using hinj
  constructor
  · intro hc
    rcases acontains_exists d _ hc with ⟨b, hb⟩
    have hne := hInv.buckets_nonempty d b hb
    cases b with
    | nil => exact absurd rfl hne
    | cons p rest =>
      rcases hInv.sound d _ hb p.1 p.2 (List.mem_cons_self _ _) with ⟨h1, _, h3⟩
      exact ⟨p.2, h1, h3⟩
  · rintro ⟨c, hcA, hcd⟩
    rcases hInv.complete c hcA d hcd with ⟨b, hb, _⟩
    unfold acontains
    rw [hb]
    rfl

/-- C1, witness: register `⟨1, [7]⟩` and `⟨2, [7, 8]⟩`, then unregister the
first; the invariant instance for device 7 holds on this concrete trace. -/
theorem c1_witness :
    acontains 7 (runTrace [TraceOp.reg ⟨1, [7]⟩, TraceOp.reg ⟨2, [7, 8]⟩,
        TraceOp.unreg ⟨1, [7]⟩] []) = true
      ↔ ∃ c ∈ runActive [TraceOp.reg ⟨1, [7]⟩, TraceOp.reg ⟨2, [7, 8]⟩,
          TraceOp.unreg ⟨1, [7]⟩] [], 7 ∈ c.device_ids :=
  c1_index_contains_iff _ (by unfold InjOnInst; decide) 7

/- ### Round trip of register followed by unregister -/

theorem keys_of_alookup_some (k : Int) (v : β) (l : List (Int × β))
    (h : alookup k l = some v) : k ∈ l.map Prod.fst :=
  List.mem_map.mpr ⟨(k, v), mem_of_alookup k v l h, rfl⟩

theorem regD_new (c : RegCond) (X : CondIndex) (e : Int)
    (h : alookup e X = none) :
    registerDevice c X e = aset e [(c.instance_id, c)] X := by
  rw [regDevice_eq, h]

theorem regD_skip (c : RegCond) (X : CondIndex) (e : Int) (b : List (Int × RegCond))
    (h : alookup e X = some b) (hib : acontains c.instance_id b = true) :
    registerDevice c X e = X := by
  rw [regDevice_eq, h]
  simp [hib]

theorem regD_app (c : RegCond) (X : CondIndex) (e : Int) (b : List (Int × RegCond))
    (h : alookup e X = some b) (hib : acontains c.instance_id b = false) :
    registerDevice c X e = aset e (b ++ [(c.instance_id, c)]) X := by
  rw [regDevice_eq, h]
  simp [hib]

theorem unregD_none (c : RegCond) (X : CondIndex) (d : Int)
    (h : alookup d X = none) : unregisterDevice c X d = X := by
  rw [unregDevice_eq, h]

theorem unregD_skip (c : RegCond) (X : CondIndex) (d : Int) (b : List (Int × RegCond))
    (h : alookup d X = some b) (hib : acontains c.instance_id b = false) :
    unregisterDevice c X d = X := by
  rw [unregDevice_eq, h]
  simp [hib]

theorem unregD_del (c : RegCond) (X : CondIndex) (d : Int) (b : List (Int × RegCond))
    (h : alookup d X = some b) (hib : acontains c.instance_id b = true)
    (hlen : (adel c.instance_id b).length = 0) :
    unregisterDevice c X d = adel d X := by
  rw [unregDevice_eq, h]
  simp [hib, hlen]

theorem unregD_set (c : RegCond) (X : CondIndex) (d : Int) (b : List (Int × RegCond))
    (h : alookup d X = some b) (hib : acontains c.instance_id b = true)
    (hlen : ¬ (adel c.instance_id b).length = 0) :
    unregisterDevice c X d = aset d (adel c.instance_id b) X := by
  rw [unregDevice_eq, h]
  simp [hib, hlen]

theorem regD_present_self (c : RegCond) (X : CondIndex) (d : Int) :
    PresentAt c d (registerDevice c X d) := by
  refine ⟨regBucketF c (alookup d X), ?_, acontains_regBucketF c _⟩
  rw [alookup_regDevice, if_pos rfl]

theorem regD_preserves_present (c : RegCond) (X : CondIndex) (d e : Int)
    (h : PresentAt c d X) : PresentAt c d (registerDevice c X e) := by
  rcases h with ⟨b, hb, hib⟩
  by_cases hde : d = e
  · subst hde
    exact regD_present_self c X d
  · exact ⟨b, by rw [alookup_regDevice, if_neg hde]; exact hb, hib⟩

theorem regD_noop_present (c : RegCond) (X : CondIndex) (d : Int)
    (h : PresentAt c d X) : registerDevice c X d = X := by
  rcases h with ⟨b, hb, hib⟩
  exact regD_skip c X d b hb hib

theorem unregD_absent_self (c : RegCond) (X : CondIndex) (d : Int)
    (houter : OuterNodup X) (hbuckets : BucketsNodup X) :
    AbsentAt c d (unregisterDevice c X d) := by
  cases hd : alookup d X with
  | none =>
    rw [unregD_none c X d hd]
    intro b hb
    rw [hd] at hb
    cases hb
  | some b0 =>
    by_cases hib : acontains c.instance_id b0 = true
    · by_cases hlen : (adel c.instance_id b0).length = 0
      · rw [unregD_del c X d b0 hd hib hlen]
        intro b hb
        rw [alookup_adel_self d X houter] at hb
        cases hb
      · rw [unregD_set c X d b0 hd hib hlen]
        intro b hb
        rw [alookup_aset_self] at hb
        injection hb with hb
        subst hb
        exact acontains_adel_self c.instance_id b0 (hbuckets d b0 hd)
    · have hib' : acontains c.instance_id b0 = false := by
        cases hx : acontains c.instance_id b0
        · rfl
        · exact absurd hx hib
      rw [unregD_skip c X d b0 hd hib']
      intro b hb
      rw [hd] at hb
      injection hb with hb
      subst hb
      exact hib'

theorem unregD_preserves_absent (c : RegCond) (X : CondIndex) (d e : Int)
    (houter : OuterNodup X) (h : AbsentAt c d X) :
    AbsentAt c d (unregisterDevice c X e) := by
  intro b hb
  rw [alookup_unregDevice c d e X houter] at hb
  by_cases hde : d = e
  · rw [if_pos hde] at hb
    cases hob : alookup d X with
    | none => rw [hob] at hb; simp [unregBucketF] at hb
    | some b0 =>
      have hib := h b0 hob
      rw [hob] at hb
      simp only [unregBucketF, hib, Bool.false_eq_true, if_false] at hb
      injection hb with hb
      subst hb
      exact hib
  · rw [if_neg hde] at hb
    exact h b hb

theorem unregD_noop_absent (c : RegCond) (X : CondIndex) (d : Int)
    (h : AbsentAt c d X) : unregisterDevice c X d = X := by
  cases hd : alookup d X with
  | none => exact unregD_none c X d hd
  | some b => exact unregD_skip c X d b hd (h b hd)

theorem dedupAux_spec (ds : List Int) :
    ∀ seen : List Int,
    (∀ x ∈ dedupAux ds seen, x ∉ seen) ∧ (dedupAux ds seen).Nodup := by
  induction ds with
  | nil => intro seen; simp [dedupAux]
  | cons k rest ih =>
    intro seen
    by_cases hk : k ∈ seen
    · simpa [dedupAux, hk] using ih seen
    · simp only [dedupAux, hk, if_false]
      constructor
      · intro x hx
        rcases List.mem_cons.mp hx with rfl | hx2
        · exact hk
        · intro hxs
          exact (ih (k :: seen)).1 x hx2 (List.mem_cons_of_mem _ hxs)
      · rw [List.nodup_cons]
        refine ⟨?_, (ih (k :: seen)).2⟩
        intro hkmem
        exact (ih (k :: seen)).1 k hkmem (List.mem_cons_self _ _)

theorem dedupF_nodup (l : List Int) : (dedupF l).Nodup :=
  (dedupAux_spec l []).2

theorem reg_dedup_aux (c : RegCond) (ds : List Int) :
    ∀ (seen : List Int) (X : CondIndex),
    (∀ d ∈ seen, PresentAt c d X) →
    ds.foldl (registerDevice c) X = (dedupAux ds seen).foldl (registerDevice c) X := by
  induction ds with
  | nil => intro seen X _; rfl
  | cons k rest ih =>
    intro seen X hseen
    by_cases hk : k ∈ seen
    · rw [List.foldl_cons, regD_noop_present c X k (hseen k hk)]
      simp only [dedupAux, hk, if_true]
      exact ih seen X hseen
    · simp only [dedupAux, hk, if_false]
      rw [List.foldl_cons, List.foldl_cons]
      apply ih (k :: seen) (registerDevice c X k)
      intro d hd
      rcases List.mem_cons.mp hd with rfl | hd2
      · exact regD_present_self c X d
      · exact regD_preserves_present c X d k (hseen d hd2)

theorem reg_dedup (c : RegCond) (ds : List Int) (X : CondIndex) :
    ds.foldl (registerDevice c) X = (dedupF ds).foldl (registerDevice c) X :=
  reg_dedup_aux c ds [] X (by intro d hd; cases hd)

theorem unreg_preserves_wf2 (c : RegCond) (X : CondIndex) (e : Int)
    (houter : OuterNodup X) (hbuckets : BucketsNodup X) :
    OuterNodup (unregisterDevice c X e) ∧ BucketsNodup (unregisterDevice c X e) :=
  ⟨outer_nodup_unregDevice c X e houter, buckets_nodup_unregDevice c X e houter hbuckets⟩

theorem unreg_dedup_aux (c : RegCond) (ds : List Int) :
    ∀ (seen : List Int) (X : CondIndex),
    OuterNodup X → BucketsNodup X →
    (∀ d ∈ seen, AbsentAt c d X) →
    ds.foldl (unregisterDevice c) X = (dedupAux ds seen).foldl (unregisterDevice c) X := by
  induction ds with
  | nil => intro seen X _ _ _; rfl
  | cons k rest ih =>
    intro seen X houter hbuckets hseen
    by_cases hk : k ∈ seen
    · rw [List.foldl_cons, unregD_noop_absent c X k (hseen k hk)]
      simp only [dedupAux, hk, if_true]
      exact ih seen X houter hbuckets hseen
    · simp only [dedupAux, hk, if_false]
      rw [List.foldl_cons, List.foldl_cons]
      apply ih (k :: seen) (unregisterDevice c X k)
        (outer_nodup_unregDevice c X k houter)
        (buckets_nodup_unregDevice c X k houter hbuckets)
      intro d hd
      rcases List.mem_cons.mp hd with rfl | hd2
      · exact unregD_absent_self c X d houter hbuckets
      · exact unregD_preserves_absent c X d k houter (hseen d hd2)

theorem unreg_dedup (c : RegCond) (ds : List Int) (X : CondIndex)
    (houter : OuterNodup X) (hbuckets : BucketsNodup X) :
    ds.foldl (unregisterDevice c) X = (dedupF ds).foldl (unregisterDevice c) X :=
  unreg_dedup_aux c ds [] X houter hbuckets (by intro d hd; cases hd)


theorem aset_cons_eq (k : Int) (v : β) (p : Int × β) (rest : List (Int × β))
    (h : p.1 = k) : aset k v (p :: rest) = (k, v) :: rest := by
  cases p
  simp only [aset]
  rw [if_pos h]

theorem aset_cons_ne (k : Int) (v : β) (p : Int × β) (rest : List (Int × β))
    (h : ¬ p.1 = k) : aset k v (p :: rest) = p :: aset k v rest := by
  cases p
  simp only [aset]
  rw [if_neg h]

theorem adel_cons_eq (k : Int) (p : Int × β) (rest : List (Int × β))
    (h : p.1 = k) : adel k (p :: rest) = rest := by
  cases p
  simp only [adel]
  rw [if_pos h]

theorem adel_cons_ne (k : Int) (p : Int × β) (rest : List (Int × β))
    (h : ¬ p.1 = k) : adel k (p :: rest) = p :: adel k rest := by
  cases p
  simp only [adel]
  rw [if_neg h]

theorem adel_aset_ne (k k' : Int) (v : β) (l : List (Int × β)) (h : k ≠ k') :
    adel k (aset k' v l) = aset k' v (adel k l) := by
  induction l with
  | nil =>
    show adel k [(k', v)] = aset k' v []
    rw [adel_cons_ne k (k', v) [] (fun hh : k' = k => h hh.symm)]
    rfl
  | cons p rest ih =>
    by_cases hp' : p.1 = k'
    · rw [aset_cons_eq k' v p rest hp',
        adel_cons_ne k (k', v) rest (fun hh : k' = k => h hh.symm),
        adel_cons_ne k p rest (fun hh => h ((hp' ▸ hh : (k':Int) = k)).symm),
        aset_cons_eq k' v p (adel k rest) hp']
    · by_cases hpk : p.1 = k
      · rw [aset_cons_ne k' v p rest hp', adel_cons_eq k p (aset k' v rest) hpk,
          adel_cons_eq k p rest hpk]
      · rw [aset_cons_ne k' v p rest hp', adel_cons_ne k p (aset k' v rest) hpk,
          adel_cons_ne k p rest hpk, aset_cons_ne k' v p (adel k rest) hp', ih]

theorem aset_comm_of_mem (k k' : Int) (v w : β) (l : List (Int × β))
    (hne : k ≠ k') (hmem : k ∈ l.map Prod.fst) :
    aset k v (aset k' w l) = aset k' w (aset k v l) := by
  induction l with
  | nil => simp at hmem
  | cons p rest ih =>
    by_cases hpk : p.1 = k
    · rw [aset_cons_ne k' w p rest (fun hh => hne (hpk.symm.trans hh)),
        aset_cons_eq k v p rest hpk,
        aset_cons_eq k v p (aset k' w rest) hpk,
        aset_cons_ne k' w (k, v) rest (fun hh : k = k' => hne hh)]
    · by_cases hpk' : p.1 = k'
      · rw [aset_cons_eq k' w p rest hpk',
          aset_cons_ne k v p rest hpk,
          aset_cons_ne k v (k', w) rest (fun hh : k' = k => hne hh.symm),
          aset_cons_eq k' w p (aset k v rest) hpk']
      · have hmem' : k ∈ rest.map Prod.fst := by
          rw [List.map_cons] at hmem
          rcases List.mem_cons.mp hmem with h1 | h1
          · exact absurd h1.symm hpk
          · exact h1
        rw [aset_cons_ne k' w p rest hpk', aset_cons_ne k v p rest hpk,
          aset_cons_ne k v p (aset k' w rest) hpk,
          aset_cons_ne k' w p (aset k v rest) hpk', ih hmem']

theorem commD (c : RegCond) (X : CondIndex) (d e : Int) (hde : d ≠ e) :
    unregisterDevice c (registerDevice c X e) d
      = registerDevice c (unregisterDevice c X d) e := by
  have hld : alookup d (registerDevice c X e) = alookup d X := by
    rw [alookup_regDevice, if_neg hde]
  cases hd : alookup d X with
  | none =>
    rw [unregD_none c (registerDevice c X e) d (by rw [hld, hd]),
      unregD_none c X d hd]
  | some bd =>
    by_cases hibd : acontains c.instance_id bd = true
    · by_cases hlen : (adel c.instance_id bd).length = 0
      · rw [unregD_del c (registerDevice c X e) d bd (by rw [hld, hd]) hibd hlen,
          unregD_del c X d bd hd hibd hlen]
        cases he : alookup e X with
        | none =>
          rw [regD_new c X e he,
            regD_new c (adel d X) e (by rw [alookup_adel_ne e d X hde, he])]
          exact adel_aset_ne d e [(c.instance_id, c)] X hde
        | some be =>
          by_cases hibe : acontains c.instance_id be = true
          · rw [regD_skip c X e be he hibe,
              regD_skip c (adel d X) e be (by rw [alookup_adel_ne e d X hde, he]) hibe]
          · have hibe' : acontains c.instance_id be = false := by
              cases hx : acontains c.instance_id be
              · rfl
              · exact absurd hx hibe
            rw [regD_app c X e be he hibe',
              regD_app c (adel d X) e be (by rw [alookup_adel_ne e d X hde, he]) hibe']
            exact adel_aset_ne d e _ X hde
      · rw [unregD_set c (registerDevice c X e) d bd (by rw [hld, hd]) hibd hlen,
          unregD_set c X d bd hd hibd hlen]
        have hdmem : d ∈ X.map Prod.fst := keys_of_alookup_some d bd X hd
        cases he : alookup e X with
        | none =>
          rw [regD_new c X e he,
            regD_new c (aset d (adel c.instance_id bd) X) e
              (by rw [alookup_aset_ne e d _ X hde, he])]
          exact aset_comm_of_mem d e _ _ X hde hdmem
        | some be =>
          by_cases hibe : acontains c.instance_id be = true
          · rw [regD_skip c X e be he hibe,
              regD_skip c (aset d (adel c.instance_id bd) X) e be
                (by rw [alookup_aset_ne e d _ X hde, he]) hibe]
          · have hibe' : acontains c.instance_id be = false := by
              cases hx : acontains c.instance_id be
              · rfl
              · exact absurd hx hibe
            rw [regD_app c X e be he hibe',
              regD_app c (aset d (adel c.instance_id bd) X) e be
                (by rw [alookup_aset_ne e d _ X hde, he]) hibe']
            exact aset_comm_of_mem d e _ _ X hde hdmem
    · have hibd' : acontains c.instance_id bd = false := by
        cases hx : acontains c.instance_id bd
        · rfl
        · exact absurd hx hibd
      rw [unregD_skip c (registerDevice c X e) d bd (by rw [hld, hd]) hibd',
        unregD_skip c X d bd hd hibd']

theorem comm_fold (c : RegCond) (d : Int) (rest : List Int) :
    ∀ X : CondIndex, d ∉ rest →
    unregisterDevice c (rest.foldl (registerDevice c) X) d
      = rest.foldl (registerDevice c) (unregisterDevice c X d) := by
  induction rest with
  | nil => intro X _; rfl
  | cons e rest ih =>
    intro X hd
    have hde : d ≠ e := by
      intro hh
      exact hd (by rw [hh]; exact List.mem_cons_self e rest)
    have hd' : d ∉ rest := fun hh => hd (List.mem_cons_of_mem _ hh)
    rw [List.foldl_cons, List.foldl_cons, ih (registerDevice c X e) hd',
      commD c X d e hde]

theorem rt1 (c : RegCond) (S : CondIndex) (d : Int)
    (hne : BucketsNonempty S) (hfresh : FreshInst c.instance_id S) :
    unregisterDevice c (registerDevice c S d) d = S := by
  cases hd : alookup d S with
  | none =>
    rw [regD_new c S d hd]
    have hkey : d ∉ S.map Prod.fst := (alookup_eq_none_iff d S).mp hd
    rw [unregD_del c _ d [(c.instance_id, c)] (alookup_aset_self d _ S)
      (by simp [acontains, alookup]) (by simp [adel])]
    rw [aset_fresh_append d _ S hkey]
    exact adel_append_last d _ S hkey
  | some bd =>
    have hib : acontains c.instance_id bd = false := hfresh d bd hd
    rw [regD_app c S d bd hd hib]
    have hkeys : c.instance_id ∉ bd.map Prod.fst := (acontains_false_iff _ _).mp hib
    have hadel : adel c.instance_id (bd ++ [(c.instance_id, c)]) = bd :=
      adel_append_last _ _ bd hkeys
    have hbdne : bd ≠ [] := hne d bd hd
    have hlen : ¬ (adel c.instance_id (bd ++ [(c.instance_id, c)])).length = 0 := by
      rw [hadel]
      intro h0
      exact hbdne (List.length_eq_zero.mp h0)
    rw [unregD_set c _ d _ (alookup_aset_self d _ S)
      (acontains_append_right _ _ bd) hlen, hadel, aset_aset,
      aset_lookup_self d bd S hd]

theorem rt_nodup (c : RegCond) (dd : List Int) :
    ∀ S : CondIndex, dd.Nodup → BucketsNonempty S → FreshInst c.instance_id S →
    dd.foldl (unregisterDevice c) (dd.foldl (registerDevice c) S) = S := by
  induction dd with
  | nil => intro S _ _ _; rfl
  | cons e dd ih =>
    intro S hnd hne hfresh
    rcases List.nodup_cons.mp hnd with ⟨hed, hnd'⟩
    rw [List.foldl_cons, List.foldl_cons,
      comm_fold c e dd (registerDevice c S e) hed,
      rt1 c S e hne hfresh]
    exact ih S hnd' hne hfresh

/-- C10 (confirmed): when a condition's `instance_id` occurs in no bucket of a
well-formed index `S`, `unregister_condition` run right after
`register_condition` restores `S` exactly — buckets that registration created
are deleted, pre-existing buckets regain their prior entry lists in order,
and buckets of unrelated devices are untouched; moreover
`unregister_condition` of a never-registered condition leaves the index
unchanged (it never errors — the embedded operation is total, mirroring the
membership guards in the source).  Well-formedness is the state of any
reachable `_conditions_for_device` dict: unique keys at both levels and no
empty bucket. -/
theorem c10_register_unregister_round_trip (S : CondIndex) (c : RegCond)
    (hWF : IndexWF S) (hfresh : FreshInst c.instance_id S) :
    unregister_condition (register_condition S c) c = S
    ∧ ∀ c' : RegCond, FreshInst c'.instance_id S → unregister_condition S c' = S := by
  obtain ⟨houter, hbuckets, hnonempty⟩ := hWF
  constructor
  · show c.device_ids.foldl (unregisterDevice c) (c.device_ids.foldl (registerDevice c) S) = S
    rw [reg_dedup c c.device_ids S,
      unreg_dedup c c.device_ids _
        (outer_nodup_reg_fold c (dedupF c.device_ids) S houter)
        (buckets_nodup_reg_fold c (dedupF c.device_ids) S hbuckets)]
    exact rt_nodup c (dedupF c.device_ids) S (dedupF_nodup _) hnonempty hfresh
  · intro c' hf
    show c'.device_ids.foldl (unregisterDevice c') S = S
    have hall : ∀ ds : List Int, ds.foldl (unregisterDevice c') S = S := by
      intro ds
      induction ds with
      | nil => rfl
      | cons e ds ih2 =>
        rw [List.foldl_cons, unregD_noop_absent c' S e (fun b hb => hf e b hb)]
        exact ih2
    exact hall c'.device_ids

/-- C10, witness: starting from an index where device 1 already has a bucket
holding condition `⟨9, [1]⟩`, registering the fresh condition `⟨5, [1, 2]⟩`
and unregistering it restores the index exactly, and unregistering it
without registering first is a no-op. -/
theorem c10_witness :
    unregister_condition
        (register_condition [(1, [(9, (⟨9, [1]⟩ : RegCond))])] ⟨5, [1, 2]⟩)
        ⟨5, [1, 2]⟩
      = [(1, [(9, (⟨9, [1]⟩ : RegCond))])]
    ∧ unregister_condition [(1, [(9, (⟨9, [1]⟩ : RegCond))])] ⟨5, [1, 2]⟩
      = [(1, [(9, (⟨9, [1]⟩ : RegCond))])] := by
  have hWF : IndexWF [(1, [(9, (⟨9, [1]⟩ : RegCond))])] := by
    refine ⟨by unfold OuterNodup; decide, ?_, ?_⟩
    · intro d b hb
      simp only [alookup] at hb
      by_cases h1 : (1 : Int) = d
      · rw [if_pos h1] at hb
        injection hb with hb
        subst hb
        decide
      · rw [if_neg h1] at hb
        cases hb
    · intro d b hb
      simp only [alookup] at hb
      by_cases h1 : (1 : Int) = d
      · rw [if_pos h1] at hb
        injection hb with hb
        subst hb
        decide
      · rw [if_neg h1] at hb
        cases hb
  have hfresh : FreshInst (5 : Int) [(1, [(9, (⟨9, [1]⟩ : RegCond))])] := by
    intro d b hb
    simp only [alookup] at hb
    by_cases h1 : (1 : Int) = d
    · rw [if_pos h1] at hb
      injection hb with hb
      subst hb
      decide
    · rw [if_neg h1] at hb
      cases hb
  have h := c10_register_unregister_round_trip
    [(1, [(9, (⟨9, [1]⟩ : RegCond))])] ⟨5, [1, 2]⟩ hWF hfresh
  exact ⟨h.1, h.2 ⟨5, [1, 2]⟩ hfresh⟩
